import Mathlib

/-!
synapse: shape / stride arithmetic, NDArray indexing and shape broadcasting.

A shallow embedding of `synapse/tensor/ndarray.cpp`, `synapse/include/ndarray.h`
and `synapse/func.cpp`.

Conventions of the embedding
* `size_t` is taken to be 64 bits wide: a `size_t` value is a natural number
  below `SIZE_MOD = 2 ^ 64`, and every `size_t` addition / multiplication of the
  source is reduced modulo `SIZE_MOD` (`size_add`, `size_mul`).
* `std::vector<size_t>` (`Shape`, `Strides`) is a `List Nat`; `std::vector<float>`
  is a `List α` for an arbitrary element type `α`.
* A C++ function is a function into `Except Exn`: `Except.ok` is a normal return,
  `Except.error` is either a thrown exception or undefined behaviour
  (`Exn.undefined_behaviour`: an unchecked `operator[]` outside the vector, or a
  division by zero).
* Every index loop of the source is a structural recursion on the number of
  iterations that are left, with the loop variable passed along explicitly.
-/

namespace synapse

/-! ## Machine integers -/

/-- Number of values of a `size_t` (64-bit). -/
def SIZE_MOD : Nat := 2 ^ 64

/-- The largest `size_t`. -/
def SIZE_MAX : Nat := SIZE_MOD - 1

/-- `a + b` on `size_t`. -/
def size_add (a b : Nat) : Nat := (a + b) % SIZE_MOD

/-- `a * b` on `size_t`. -/
def size_mul (a b : Nat) : Nat := (a * b) % SIZE_MOD

/-- `n - 1` on `size_t`: wraps to `SIZE_MAX` at zero. -/
def size_dec (n : Nat) : Nat := if n = 0 then SIZE_MAX else n - 1

/-! ## Outcomes -/

/-- The `what()` text of the exceptions thrown by the library:
* `rank_mismatch`: "Number of dimensions in indices and strides do not match. ..."
* `cannot_broadcast`: "Tensor shapes cannot be broadcasted."
* `sizes_do_not_match`: "Tensor sizes do not match"
* `matmul_invalid`: "Matrix multiplication is invalid. ..." -/
inductive Msg where
  | rank_mismatch : Msg
  | cannot_broadcast : Msg
  | sizes_do_not_match : Msg
  | matmul_invalid : Msg
  deriving DecidableEq, Repr

/-- Abnormal outcomes of a call:
* `invalid_argument what`: the exception `std::invalid_argument` with text `what`;
* `out_of_range_ndim`: the exception `std::out_of_range` with text
  "Number of indices does not match the number of dimensions.";
* `out_of_range_index i`: the exception `std::out_of_range` with text
  "Index out of bounds for dimension " followed by `i`;
* `undefined_behaviour`: no exception, but an unchecked vector access outside the
  vector or a division by zero. -/
inductive Exn where
  | invalid_argument (what : Msg) : Exn
  | out_of_range_ndim : Exn
  | out_of_range_index (dim : Nat) : Exn
  | undefined_behaviour : Exn
  deriving DecidableEq, Repr

deriving instance DecidableEq for Except

/-- Shape of an array, `std::vector<size_t>`. -/
abbrev Shape := List Nat

/-- Strides of an array, `std::vector<size_t>`. -/
abbrev Strides := List Nat

/-- Unchecked read `v[i]` of a `std::vector`. -/
def vec_get {α : Type} (v : List α) (i : Nat) : Except Exn α :=
  match v[i]? with
  | some x => .ok x
  | none => .error .undefined_behaviour

/-- Unchecked write `v[i] = x` of a `std::vector`. -/
def vec_set {α : Type} (v : List α) (i : Nat) (x : α) : Except Exn (List α) :=
  if i < v.length then .ok (v.set i x) else .error .undefined_behaviour

/-! ## NDArray -/

/-- The class `NDArray` (and its subclass `Tensor`, which adds no field). -/
structure NDArray (α : Type) where
  _data : List α
  _shape : Shape
  _strides : Strides
  _ndim : Nat
  _size : Nat
  deriving DecidableEq, Repr

/-- The loop `for (size_t i = ndim - 1; i > 0; --i) strides[i - 1] = shape[i] * strides[i];`
entered with loop variable `i`. -/
def strides_loop (shape : Shape) : Nat → Strides → Except Exn Strides
  | 0, strides => .ok strides
  | i + 1, strides =>
    match vec_get shape (i + 1) with
    | .error e => .error e
    | .ok d =>
      match vec_get strides (i + 1) with
      | .error e => .error e
      | .ok s =>
        match vec_set strides i (size_mul d s) with
        | .error e => .error e
        | .ok strides1 => strides_loop shape i strides1

/-- The constructor `NDArray::NDArray(std::vector<float> data, Shape shape)`. -/
def NDArray.new {α : Type} (data : List α) (shape : Shape) : Except Exn (NDArray α) :=
  let ndim := shape.length
  let size := data.length
  match vec_set (List.replicate ndim 0) (size_dec ndim) 1 with
  | .error e => .error e
  | .ok strides0 =>
    match strides_loop shape (size_dec ndim) strides0 with
    | .error e => .error e
    | .ok strides => .ok ⟨data, shape, strides, ndim, size⟩

/-- The accessor `shape()`. -/
def NDArray.shape {α : Type} (a : NDArray α) : Shape := a._shape

/-- The accessor `strides()`. -/
def NDArray.strides {α : Type} (a : NDArray α) : Strides := a._strides

/-- The accessor `data()`. -/
def NDArray.data {α : Type} (a : NDArray α) : List α := a._data

/-- The accessor `ndim()`. -/
def NDArray.ndim {α : Type} (a : NDArray α) : Nat := a._ndim

/-- The accessor `size()`. -/
def NDArray.size {α : Type} (a : NDArray α) : Nat := a._size

/-! ## Index arithmetic -/

/-- The loop `for (size_t i = 0; i < indices.size(); i++) pos += indices[i] * strides[i];`
with `k` iterations left, loop variable `i` and accumulator `pos`. -/
def nd_index_to_pos_loop (indices : Shape) (strides : Strides) :
    Nat → Nat → Nat → Except Exn Nat
  | 0, _, pos => .ok pos
  | k + 1, i, pos =>
    match vec_get indices i with
    | .error e => .error e
    | .ok x =>
      match vec_get strides i with
      | .error e => .error e
      | .ok s => nd_index_to_pos_loop indices strides k (i + 1) (size_add pos (size_mul x s))

/-- The function `nd_index_to_pos(indices, strides)`. -/
def nd_index_to_pos (indices : Shape) (strides : Strides) : Except Exn Nat :=
  if indices.length ≠ strides.length then
    .error (.invalid_argument .rank_mismatch)
  else
    nd_index_to_pos_loop indices strides indices.length 0 0

/-- The loop `for (size_t i = shape.size(); i-- > 0;) { out[i] = pos % shape[i]; pos /= shape[i]; }`
with `n` iterations left; the body runs with `i = n - 1`. -/
def pos_to_nd_index_loop (shape : Shape) : Nat → Nat → Shape → Except Exn Shape
  | 0, _, out => .ok out
  | i + 1, pos, out =>
    match vec_get shape i with
    | .error e => .error e
    | .ok d =>
      if d = 0 then .error .undefined_behaviour
      else
        match vec_set out i (pos % d) with
        | .error e => .error e
        | .ok out1 => pos_to_nd_index_loop shape i (pos / d) out1

/-- The function `pos_to_nd_index(pos, shape)`. -/
def pos_to_nd_index (pos : Nat) (shape : Shape) : Except Exn Shape :=
  pos_to_nd_index_loop shape shape.length pos (List.replicate shape.length 0)

/-- Index checks and offset computation of element access,
`NDArray::_operator_parenthesis(indices...)`: the loop
`for (size_t i = 0; i < idx_vec.size(); i++) if (idx_vec[i] >= shape()[i]) throw ...`
with `k` iterations left and loop variable `i`. -/
def bounds_check_loop (idx_vec shape : Shape) : Nat → Nat → Except Exn Unit
  | 0, _ => .ok ()
  | k + 1, i =>
    match vec_get idx_vec i with
    | .error e => .error e
    | .ok x =>
      match vec_get shape i with
      | .error e => .error e
      | .ok d =>
        if x ≥ d then .error (.out_of_range_index i)
        else bounds_check_loop idx_vec shape k (i + 1)

/-- The private member `NDArray::_operator_parenthesis(indices...)`; `idx_vec` is the
vector built from the argument pack (non-empty by the `static_assert`). -/
def NDArray._operator_parenthesis {α : Type} (a : NDArray α) (idx_vec : Shape) :
    Except Exn Nat :=
  if idx_vec.length ≠ a.ndim then .error .out_of_range_ndim
  else
    match bounds_check_loop idx_vec a.shape idx_vec.length 0 with
    | .error e => .error e
    | .ok _ => nd_index_to_pos idx_vec a.strides

/-- Element access `NDArray::operator()(indices...)`:
`this->data()[_operator_parenthesis(indices...)]`. -/
def NDArray.operator_call {α : Type} (a : NDArray α) (idx_vec : Shape) : Except Exn α :=
  match a._operator_parenthesis idx_vec with
  | .error e => .error e
  | .ok p => vec_get a.data p

/-! ## Broadcasting -/

/-- Dereference of a reverse iterator that was advanced `r` times from `rbegin()`. -/
def rev_get {α : Type} (v : List α) (r : Nat) : Except Exn α :=
  if r < v.length then vec_get v (v.length - 1 - r) else .error .undefined_behaviour

/-- Assignment through a reverse iterator that was advanced `r` times from `rbegin()`. -/
def rev_set {α : Type} (v : List α) (r : Nat) (x : α) : Except Exn (List α) :=
  if r < v.length then vec_set v (v.length - 1 - r) x else .error .undefined_behaviour

/-- The loop `for (size_t i = 0; i < out_size; ++i)` of `shape_broadcast` with `k`
iterations left, loop variable `i`, and the three reverse iterators given by the
number of times each was advanced. -/
def shape_broadcast_loop (shape_1 shape_2 : Shape) :
    Nat → Nat → Nat → Nat → Nat → Shape → Except Exn Shape
  | 0, _, _, _, _, out => .ok out
  | k + 1, i, it_s1, it_s2, it_out, out =>
    match (if i < shape_1.length then rev_get shape_1 it_s1 else .ok 1) with
    | .error e => .error e
    | .ok sz1 =>
      match (if i < shape_2.length then rev_get shape_2 it_s2 else .ok 1) with
      | .error e => .error e
      | .ok sz2 =>
        if sz1 ≠ 1 ∧ sz2 ≠ 1 ∧ sz1 ≠ sz2 then
          .error (.invalid_argument .cannot_broadcast)
        else
          match rev_set out it_out (max sz1 sz2) with
          | .error e => .error e
          | .ok out1 =>
            shape_broadcast_loop shape_1 shape_2 k (i + 1)
              (if i < shape_1.length then it_s1 + 1 else it_s1)
              (if i < shape_2.length then it_s2 + 1 else it_s2)
              (it_out + 1) out1

/-- The function `shape_broadcast(shape_1, shape_2)`. -/
def shape_broadcast (shape_1 shape_2 : Shape) : Except Exn Shape :=
  let len1 := shape_1.length
  let len2 := shape_2.length
  let out_size := max len1 len2
  shape_broadcast_loop shape_1 shape_2 out_size 0 0 0 0 (List.replicate out_size 0)

/-! ## Tensor and element-wise functions -/

/-- The class `Tensor`: a subclass of `NDArray` without fields of its own. -/
abbrev Tensor (α : Type) := NDArray α

/-- The constructor `Tensor::Tensor(data, shape)`, which only calls the constructor of
`NDArray`. -/
def Tensor.new {α : Type} (data : List α) (shape : Shape) : Except Exn (Tensor α) :=
  NDArray.new data shape

/-- The loop `for (size_t i = 0; i < tensor_1.size(); i++)
tensor_3.data()[i] = tensor_1.data()[i] op tensor_2.data()[i];` of `add` and `mul`, with `k`
iterations left and loop variable `i`. -/
def elementwise_loop {α : Type} (op : α → α → α) (d1 d2 : List α) :
    Nat → Nat → List α → Except Exn (List α)
  | 0, _, d3 => .ok d3
  | k + 1, i, d3 =>
    match vec_get d1 i with
    | .error e => .error e
    | .ok x =>
      match vec_get d2 i with
      | .error e => .error e
      | .ok y =>
        match vec_set d3 i (op x y) with
        | .error e => .error e
        | .ok d4 => elementwise_loop op d1 d2 k (i + 1) d4

/-- The function `add(tensor_1, tensor_2)`. -/
def add {α : Type} [Zero α] [Add α] (tensor_1 tensor_2 : Tensor α) : Except Exn (Tensor α) :=
  if tensor_1.size ≠ tensor_2.size then
    .error (.invalid_argument .sizes_do_not_match)
  else
    match Tensor.new (List.replicate tensor_1.size (0 : α)) tensor_1.shape with
    | .error e => .error e
    | .ok tensor_3 =>
      match elementwise_loop (· + ·) tensor_1.data tensor_2.data tensor_1.size 0
          tensor_3.data with
      | .error e => .error e
      | .ok d => .ok { tensor_3 with _data := d }

/-- The function `mul(tensor_1, tensor_2)`. -/
def mul {α : Type} [Zero α] [Mul α] (tensor_1 tensor_2 : Tensor α) : Except Exn (Tensor α) :=
  if tensor_1.size ≠ tensor_2.size then
    .error (.invalid_argument .sizes_do_not_match)
  else
    match Tensor.new (List.replicate tensor_1.size (0 : α)) tensor_1.shape with
    | .error e => .error e
    | .ok tensor_3 =>
      match elementwise_loop (· * ·) tensor_1.data tensor_2.data tensor_1.size 0
          tensor_3.data with
      | .error e => .error e
      | .ok d => .ok { tensor_3 with _data := d }

/-- The function `matmul(tensor_1, tensor_2)`: the check of the inner dimensions, the call
of `shape_broadcast` (whose result is not used) and `return tensor_1`. -/
def matmul {α : Type} (tensor_1 tensor_2 : Tensor α) : Except Exn (Tensor α) :=
  match vec_get tensor_1.shape (size_dec tensor_1.shape.length) with
  | .error e => .error e
  | .ok x =>
    match vec_get tensor_2.shape 0 with
    | .error e => .error e
    | .ok y =>
      if x ≠ y then .error (.invalid_argument .matmul_invalid)
      else
        match shape_broadcast tensor_1.shape tensor_2.shape with
        | .error e => .error e
        | .ok _ => .ok tensor_1

/-- The loop `for (size_t i = 0; i < tensor_1.size(); ++i)
if (std::fabs(tensor_1.data()[i] - tensor_2.data()[i]) > tol) return false;` of `is_close`, with
`k` iterations left and loop variable `i`. The operations of `float` are parameters:
`x - y` is the `Sub` instance, `fabs` is `std::fabs` and `gt x y` is `x > y`. -/
def is_close_loop {α : Type} [Sub α] (fabs : α → α) (gt : α → α → Bool) (d1 d2 : List α)
    (tol : α) : Nat → Nat → Except Exn Bool
  | 0, _ => .ok true
  | k + 1, i =>
    match vec_get d1 i with
    | .error e => .error e
    | .ok x =>
      match vec_get d2 i with
      | .error e => .error e
      | .ok y =>
        if gt (fabs (x - y)) tol then .ok false
        else is_close_loop fabs gt d1 d2 tol k (i + 1)

/-- The function `is_close(tensor_1, tensor_2, tol)`. -/
def is_close {α : Type} [Sub α] (fabs : α → α) (gt : α → α → Bool)
    (tensor_1 tensor_2 : Tensor α) (tol : α) : Except Exn Bool :=
  if tensor_1.shape ≠ tensor_2.shape then .ok false
  else is_close_loop fabs gt tensor_1.data tensor_2.data tol tensor_1.size 0

/-! ## Contiguity and formatting -/

/-- The loop `for (size_t i = ndim - 1; i > 0; --i)
if (strides[i - 1] != shape[i] * strides[i]) return false;` of `is_contigous`, entered with
loop variable `i`. -/
def is_contigous_loop (shape : Shape) (strides : Strides) : Nat → Except Exn Bool
  | 0 => .ok true
  | i + 1 =>
    match vec_get strides i with
    | .error e => .error e
    | .ok s0 =>
      match vec_get shape (i + 1) with
      | .error e => .error e
      | .ok d =>
        match vec_get strides (i + 1) with
        | .error e => .error e
        | .ok s1 =>
          if s0 ≠ size_mul d s1 then .ok false
          else is_contigous_loop shape strides i

/-- The method `NDArray::is_contigous()`. -/
def NDArray.is_contigous {α : Type} (a : NDArray α) : Except Exn Bool :=
  if a._ndim = 1 then .ok true
  else is_contigous_loop a._shape a._strides (size_dec a._ndim)

/-- The loop `for (size_t i = 0; i < shape()[current_dim]; i++)` over the last axis in
`to_string`: `if (i > 0) oss << ", "; oss << data()[offset + i];`, with `k` iterations left,
loop variable `i` and the text written so far `oss`. `fmt` is the rendering of one `float`
under `std::fixed << std::setprecision(3)`. -/
def to_string_elems_loop {α : Type} (fmt : α → String) (data : List α) (offset : Nat) :
    Nat → Nat → String → Except Exn String
  | 0, _, oss => .ok oss
  | k + 1, i, oss =>
    match vec_get data (size_add offset i) with
    | .error e => .error e
    | .ok x =>
      to_string_elems_loop fmt data offset k (i + 1)
        ((if i > 0 then oss ++ ", " else oss) ++ fmt x)

/-- The loop `for (size_t j = current_dim + 1; j < ndim(); j++) subarray_size *= shape()[j];`
of `to_string`, with `k` iterations left, loop variable `j` and accumulator
`subarray_size`. -/
def subarray_size_loop (shape : Shape) : Nat → Nat → Nat → Except Exn Nat
  | 0, _, subarray_size => .ok subarray_size
  | k + 1, j, subarray_size =>
    match vec_get shape j with
    | .error e => .error e
    | .ok d => subarray_size_loop shape k (j + 1) (size_mul subarray_size d)

/-- The loop `for (size_t i = 0; i < shape()[current_dim]; i++)` over an outer axis in
`to_string`: `if (i > 0) oss << ",\n" << indent << " ";
rec(offset + i * subarray_size, current_dim + 1, indent + " ");`, with `k` iterations left and
loop variable `i`. `rec_call offset oss` is the recursive call at the next axis. -/
def to_string_blocks_loop (rec_call : Nat → String → Except Exn String) (indent : String)
    (offset subarray_size : Nat) : Nat → Nat → String → Except Exn String
  | 0, _, oss => .ok oss
  | k + 1, i, oss =>
    match rec_call (size_add offset (size_mul i subarray_size))
        (if i > 0 then oss ++ ",\n" ++ indent ++ " " else oss) with
    | .error e => .error e
    | .ok oss1 => to_string_blocks_loop rec_call indent offset subarray_size k (i + 1) oss1

/-- The recursive helper `rec(offset, current_dim, indent)` of `to_string`, writing to the
stream `oss`. The first argument bounds the depth of the recursion; `ndim()` levels are
enough, since `current_dim` grows by one at each level and the recursion stops at
`ndim() - 1`. -/
def to_string_rec {α : Type} (fmt : α → String) (a : NDArray α) :
    Nat → Nat → Nat → String → String → Except Exn String
  | 0, _, _, _, _ => .error .undefined_behaviour
  | fuel + 1, offset, current_dim, indent, oss =>
    if current_dim = size_dec a.ndim then
      match vec_get a.shape current_dim with
      | .error e => .error e
      | .ok n =>
        match to_string_elems_loop fmt a.data offset n 0 (oss ++ "[") with
        | .error e => .error e
        | .ok oss1 => .ok (oss1 ++ "]")
    else
      match subarray_size_loop a.shape (a.ndim - size_add current_dim 1)
          (size_add current_dim 1) 1 with
      | .error e => .error e
      | .ok subarray_size =>
        match vec_get a.shape current_dim with
        | .error e => .error e
        | .ok n =>
          match to_string_blocks_loop
              (fun off o => to_string_rec fmt a fuel off (size_add current_dim 1)
                (indent ++ " ") o)
              indent offset subarray_size n 0 (oss ++ "[") with
          | .error e => .error e
          | .ok oss1 => .ok (oss1 ++ "]")

/-- The method `NDArray::to_string()`. -/
def NDArray.to_string {α : Type} (fmt : α → String) (a : NDArray α) : Except Exn String :=
  if a.size = 0 then .ok "[]"
  else to_string_rec fmt a a.ndim 0 0 "" ""

/-! ## Specification-level functions -/

/-- Products of the extents to the right of each axis, as natural numbers:
entry `i` is `shape[i+1] * ... * shape[rank-1]`. -/
def suffix_products : Shape → List Nat
  | [] => []
  | _ :: ds => ds.prod :: suffix_products ds

/-- Row-major strides in `size_t` arithmetic: the suffix products modulo `SIZE_MOD`. -/
def row_major_strides (shape : Shape) : Strides :=
  (suffix_products shape).map (fun x => x % SIZE_MOD)

/-- The sum of `indices[i] * strides[i]` over the common indices, as a natural number. -/
def index_dot : List Nat → List Nat → Nat
  | x :: xs, s :: ss => x * s + index_dot xs ss
  | _, _ => 0

/-- Row-major coordinates of an offset: entry `i` is
`(pos / (shape[i+1] * ... * shape[rank-1])) % shape[i]`. -/
def unravel (pos : Nat) : Shape → List Nat
  | [] => []
  | d :: ds => (pos / ds.prod % d) :: unravel pos ds

/-- The index vector `indices` is in bounds for `shape`: same length, and
`indices[i] < shape[i]` at every axis. -/
def InBounds (indices shape : Shape) : Prop :=
  indices.length = shape.length ∧ ∀ i, i < shape.length → indices.getD i 0 < shape.getD i 0

instance (indices shape : Shape) : Decidable (InBounds indices shape) := by
  unfold InBounds; infer_instance

/-- Every extent of `shape` is at least `1`. -/
def PositiveExtents (shape : Shape) : Prop := ∀ d ∈ shape, 1 ≤ d

instance (shape : Shape) : Decidable (PositiveExtents shape) := by
  unfold PositiveExtents; infer_instance

/-- Extent of `shape` at the `j`-th axis counted from the right, with virtual leading
ones: `shape[rank - 1 - j]` when `j < rank`, otherwise `1`. -/
def aligned_extent (shape : Shape) (j : Nat) : Nat :=
  if j < shape.length then shape.getD (shape.length - 1 - j) 0 else 1

/-- Two aligned extents are compatible: equal, or one of them is `1`. -/
def compatible (a b : Nat) : Prop := a = b ∨ a = 1 ∨ b = 1

instance (a b : Nat) : Decidable (compatible a b) := by
  unfold compatible; infer_instance

/-- The row-major position of an index vector: the sum over the axes `i` of
`indices[i]` times the product of the extents `shape[j]` with `j > i`. -/
def row_major_offset (indices shape : Shape) : Nat :=
  ((List.range shape.length).map
    (fun i => indices.getD i 0 * (shape.drop (i + 1)).prod)).sum

/-- A fragment of the values of an IEEE-754 binary32 `float`: the NaN, the two infinities
and the floats whose value is an integer. `int n` stands for the float of value `n` (`+0`
for `n = 0`) and is meant for the integers that a `float` represents exactly, those with
`F32.round_int n = int n`: every integer of magnitude up to `2^24`, and above it the
multiples of a power of two that have 24 significant bits. -/
inductive F32 where
  | nan : F32
  | inf (negative : Bool) : F32
  | int (n : Int) : F32
  deriving DecidableEq, Repr

/-- Rounding of a magnitude to the nearest magnitude of a `float`: with `e` the least
exponent at which `m / 2^e` has at most 24 bits, `m` is rounded to a multiple of `2^e`, to
the nearest one and at a tie to the one with the even significand; `none` when the result
is `2^128` or more (overflow). -/
def F32.round_nat (m : Nat) : Option Nat :=
  match (List.range 106).find? (fun e => decide (m / 2 ^ e < 2 ^ 24)) with
  | none => none
  | some e =>
    let q := m / 2 ^ e
    let r := m % 2 ^ e
    let q1 := if 2 ^ e < 2 * r ∨ (2 * r = 2 ^ e ∧ q % 2 = 1) then q + 1 else q
    if q1 * 2 ^ e < 2 ^ 128 then some (q1 * 2 ^ e) else none

/-- The `float` nearest to the integer `n` (round to nearest, ties to even): an infinity on
overflow. -/
def F32.round_int (n : Int) : F32 :=
  match F32.round_nat n.natAbs with
  | none => .inf (decide (n < 0))
  | some m => .int (if n < 0 then -(m : Int) else (m : Int))

/-- Subtraction `x - y` of `float` on the fragment: the exact difference rounded to the
nearest `float`; NaN when an operand is NaN or for the difference of two infinities of the
same sign. -/
def F32.sub : F32 → F32 → F32
  | .int a, .int b => F32.round_int (a - b)
  | .inf s, .int _ => .inf s
  | .int _, .inf s => .inf (!s)
  | .inf s, .inf t => if s = t then .nan else .inf s
  | .nan, _ => .nan
  | _, .nan => .nan

instance : Sub F32 := ⟨F32.sub⟩

/-- The function `std::fabs` on the fragment. -/
def F32.fabs : F32 → F32
  | .int a => .int (if a < 0 then -a else a)
  | .inf _ => .inf false
  | .nan => .nan

/-- The comparison `x > y` of `float` on the fragment: false when an operand is NaN. -/
def F32.gt : F32 → F32 → Bool
  | .int a, .int b => decide (b < a)
  | .inf false, .int _ => true
  | .inf false, .inf true => true
  | .int _, .inf true => true
  | _, _ => false

/-- The comparison `x <= y` of `float` on the fragment: false when an operand is NaN. -/
def F32.le : F32 → F32 → Bool
  | .int a, .int b => decide (a ≤ b)
  | .inf true, .int _ => true
  | .inf true, .inf _ => true
  | .int _, .inf false => true
  | .inf false, .inf false => true
  | _, _ => false

/-- Row `i` of the rendering of a buffer as rows of `c` elements: an opening bracket, the
renderings of `buffer[i*c .. i*c+c-1]` joined by a comma and a blank, a closing bracket. -/
def rendered_row {α : Type} (fmt : α → String) (data : List α) (c i : Nat) : String :=
  "[" ++ String.intercalate ", " (((data.drop (i * c)).take c).map fmt) ++ "]"

/-- The rendering of a buffer as `r` rows of `c` elements: an opening bracket, the rows
joined by a comma, a line break and a blank, a closing bracket. -/
def rendered_matrix {α : Type} (fmt : α → String) (data : List α) (r c : Nat) : String :=
  "[" ++ String.intercalate ",\n " ((List.range r).map (rendered_row fmt data c)) ++ "]"

/-- The nested call `shape_broadcast(shape_broadcast(a, b), c)`: an exception of the inner
call leaves the outer one uncalled. -/
def shape_broadcast_left (a b c : Shape) : Except Exn Shape :=
  match shape_broadcast a b with
  | .error e => .error e
  | .ok ab => shape_broadcast ab c

/-- The nested call `shape_broadcast(a, shape_broadcast(b, c))`: an exception of the inner
call leaves the outer one uncalled. -/
def shape_broadcast_right (a b c : Shape) : Except Exn Shape :=
  match shape_broadcast b c with
  | .error e => .error e
  | .ok bc => shape_broadcast a bc

/-! ## Basic facts -/

theorem SIZE_MOD_pos : 0 < SIZE_MOD := by unfold SIZE_MOD; positivity

theorem vec_get_of_getElem? {α : Type} {v : List α} {i : Nat} {x : α} (h : v[i]? = some x) :
    vec_get v i = .ok x := by
  simp [vec_get, h]

theorem vec_get_nat {v : List Nat} {i : Nat} (h : i < v.length) :
    vec_get v i = .ok (v.getD i 0) := by
  apply vec_get_of_getElem?
  simp [List.getD_eq_getElem?_getD, List.getElem?_eq_getElem h]

theorem vec_set_of_lt {α : Type} {v : List α} {i : Nat} (x : α) (h : i < v.length) :
    vec_set v i x = .ok (v.set i x) := by
  simp [vec_set, h]

theorem getD_eq_of_drop_eq {a b : List Nat} {i : Nat} (h : a.drop i = b.drop i) (j : Nat)
    (hj : i ≤ j) : a.getD j 0 = b.getD j 0 := by
  have h1 : (a.drop i)[j - i]? = (b.drop i)[j - i]? := by rw [h]
  rw [List.getElem?_drop, List.getElem?_drop] at h1
  have h2 : i + (j - i) = j := by omega
  rw [h2] at h1
  simp [List.getD_eq_getElem?_getD, h1]

theorem drop_set_self {α : Type} (v : List α) (i : Nat) (x : α) (h : i < v.length) :
    (v.set i x).drop i = x :: v.drop (i + 1) := by
  rw [List.drop_set]
  simp only [lt_self_iff_false, if_false, Nat.sub_self]
  rw [List.drop_eq_getElem_cons h]
  rfl

theorem drop_eq_getD_cons (v : List Nat) (i : Nat) (h : i < v.length) :
    v.drop i = v.getD i 0 :: v.drop (i + 1) := by
  rw [List.drop_eq_getElem_cons h]
  simp [List.getD_eq_getElem?_getD, List.getElem?_eq_getElem h]

/-! ## Strides computed by the constructor -/

theorem suffix_products_length (s : Shape) : (suffix_products s).length = s.length := by
  induction s with
  | nil => rfl
  | cons d ds ih => simp [suffix_products, ih]

theorem suffix_products_getD (s : Shape) (i : Nat) (h : i < s.length) :
    (suffix_products s).getD i 0 = (s.drop (i + 1)).prod := by
  induction s generalizing i with
  | nil => simp at h
  | cons d ds ih =>
    cases i with
    | zero => simp [suffix_products]
    | succ j =>
      simp only [List.length_cons] at h
      simpa [suffix_products] using ih j (by omega)

theorem row_major_strides_length (s : Shape) : (row_major_strides s).length = s.length := by
  simp [row_major_strides, suffix_products_length]

theorem row_major_strides_getD (s : Shape) (i : Nat) (h : i < s.length) :
    (row_major_strides s).getD i 0 = (s.drop (i + 1)).prod % SIZE_MOD := by
  have h1 : i < (suffix_products s).length := by rw [suffix_products_length]; exact h
  have h2 := suffix_products_getD s i h
  simp only [List.getD_eq_getElem?_getD, List.getElem?_eq_getElem h1, Option.getD_some] at h2
  simp [row_major_strides, List.getD_eq_getElem?_getD, List.getElem?_eq_getElem h1, h2]

theorem row_major_strides_step (s : Shape) (i : Nat) (h : i + 1 < s.length) :
    (row_major_strides s).getD i 0 =
      size_mul (s.getD (i + 1) 0) ((row_major_strides s).getD (i + 1) 0) := by
  rw [row_major_strides_getD s i (by omega), row_major_strides_getD s (i + 1) h,
    drop_eq_getD_cons s (i + 1) h, List.prod_cons, size_mul, Nat.mul_mod_mod]

theorem strides_loop_spec (shape : Shape) (i : Nat) (strides : Strides)
    (hi : i < shape.length) (hlen : strides.length = shape.length)
    (hdrop : strides.drop i = (row_major_strides shape).drop i) :
    strides_loop shape i strides = .ok (row_major_strides shape) := by
  induction i generalizing strides with
  | zero =>
    simp only [List.drop_zero] at hdrop
    simp [strides_loop, hdrop]
  | succ i ih =>
    have h1 : i + 1 < strides.length := by omega
    have h2 : i < strides.length := by omega
    have h3 : i < (row_major_strides shape).length := by
      rw [row_major_strides_length]; omega
    rw [strides_loop, vec_get_nat hi, vec_get_nat h1]
    simp only
    rw [vec_set_of_lt _ h2]
    simp only
    apply ih _ (by omega) (by simp [hlen])
    rw [drop_set_self _ _ _ h2, hdrop, drop_eq_getD_cons _ i h3,
      getD_eq_of_drop_eq hdrop (i + 1) (le_refl _), row_major_strides_step shape i hi]

theorem NDArray_new_spec {α : Type} (data : List α) (shape : Shape) (h : 1 ≤ shape.length) :
    NDArray.new data shape =
      .ok ⟨data, shape, row_major_strides shape, shape.length, data.length⟩ := by
  have hn : shape.length ≠ 0 := by omega
  have hlt : shape.length - 1 < (List.replicate shape.length 0).length := by
    simp; omega
  have hlt2 : shape.length - 1 < (row_major_strides shape).length := by
    rw [row_major_strides_length]; omega
  unfold NDArray.new
  simp only [size_dec, hn, if_false]
  rw [vec_set_of_lt _ hlt]
  simp only
  rw [strides_loop_spec shape (shape.length - 1) _ (by omega) (by simp)]
  rw [drop_set_self _ _ _ hlt, drop_eq_getD_cons _ _ hlt2,
    row_major_strides_getD _ _ (by omega)]
  have h4 : shape.length - 1 + 1 = shape.length := by omega
  have h5 : List.drop shape.length (row_major_strides shape) = [] := by
    apply List.drop_of_length_le; rw [row_major_strides_length]
  simp [h4, h5, SIZE_MOD]

theorem NDArray_new_rank_zero {α : Type} (data : List α) :
    NDArray.new data [] = .error .undefined_behaviour := by
  simp [NDArray.new, vec_set]

/-! ## From coordinates to offset -/

theorem index_dot_drop (idx str : List Nat) (i : Nat) (h1 : i < idx.length)
    (h2 : i < str.length) :
    index_dot (idx.drop i) (str.drop i) =
      idx.getD i 0 * str.getD i 0 + index_dot (idx.drop (i + 1)) (str.drop (i + 1)) := by
  rw [drop_eq_getD_cons idx i h1, drop_eq_getD_cons str i h2]
  rfl

theorem nd_index_to_pos_loop_spec (idx str : List Nat) (k i pos : Nat)
    (hk : i + k = idx.length) (hlen : idx.length = str.length) (hpos : pos < SIZE_MOD) :
    nd_index_to_pos_loop idx str k i pos =
      .ok ((pos + index_dot (idx.drop i) (str.drop i)) % SIZE_MOD) := by
  induction k generalizing i pos with
  | zero =>
    have h1 : idx.drop i = [] := List.drop_of_length_le (by omega)
    simp [nd_index_to_pos_loop, h1, index_dot, Nat.mod_eq_of_lt hpos]
  | succ k ih =>
    rw [nd_index_to_pos_loop, vec_get_nat (by omega), vec_get_nat (by omega)]
    simp only
    have hlt : size_add pos (size_mul (idx.getD i 0) (str.getD i 0)) < SIZE_MOD :=
      Nat.mod_lt _ SIZE_MOD_pos
    rw [ih (i + 1) _ (by omega) hlt, index_dot_drop idx str i (by omega) (by omega)]
    simp only [size_add, size_mul]
    rw [Nat.mod_add_mod, Nat.add_assoc, Nat.add_mod pos, Nat.mod_add_mod, Nat.mod_add_mod,
      Nat.add_mod_mod]

theorem nd_index_to_pos_spec (idx str : List Nat) (hlen : idx.length = str.length) :
    nd_index_to_pos idx str = .ok (index_dot idx str % SIZE_MOD) := by
  unfold nd_index_to_pos
  simp only [hlen, ne_eq, not_true_eq_false, if_false]
  rw [← hlen, nd_index_to_pos_loop_spec idx str idx.length 0 0 (by omega) hlen SIZE_MOD_pos]
  simp

theorem index_dot_map_mod (idx l : List Nat) :
    index_dot idx (l.map (fun x => x % SIZE_MOD)) % SIZE_MOD = index_dot idx l % SIZE_MOD := by
  induction idx generalizing l with
  | nil => cases l <;> simp [index_dot]
  | cons x xs ih =>
    cases l with
    | nil => simp [index_dot]
    | cons y ys =>
      simp only [List.map_cons, index_dot]
      rw [Nat.add_mod, ih ys, Nat.mul_mod, Nat.mod_mod, ← Nat.mul_mod, ← Nat.add_mod]

theorem nd_index_to_pos_row_major (idx s : List Nat) (hlen : idx.length = s.length) :
    nd_index_to_pos idx (row_major_strides s) =
      .ok (index_dot idx (suffix_products s) % SIZE_MOD) := by
  rw [nd_index_to_pos_spec idx _ (by rw [row_major_strides_length]; exact hlen)]
  unfold row_major_strides
  rw [index_dot_map_mod]

/-! ## From offset to coordinates -/

theorem unravel_length (p : Nat) (s : Shape) : (unravel p s).length = s.length := by
  induction s with
  | nil => rfl
  | cons d ds ih => simp [unravel, ih]

theorem unravel_getD (p : Nat) (s : Shape) (i : Nat) (h : i < s.length) :
    (unravel p s).getD i 0 = p / (s.drop (i + 1)).prod % s.getD i 0 := by
  induction s generalizing i with
  | nil => simp at h
  | cons d ds ih =>
    cases i with
    | zero => simp [unravel]
    | succ j =>
      simp only [List.length_cons] at h
      simpa [unravel] using ih j (by omega)

theorem getD_mem_of_lt (s : List Nat) (i : Nat) (h : i < s.length) : s.getD i 0 ∈ s := by
  have h1 : s.getD i 0 = s[i] := by
    simp [List.getD_eq_getElem?_getD, List.getElem?_eq_getElem h]
  rw [h1]
  exact List.getElem_mem h

theorem pos_to_nd_index_loop_spec (shape : Shape) (p i pos : Nat) (out : Shape)
    (hi : i ≤ shape.length) (hlen : out.length = shape.length)
    (hpos : pos = p / (shape.drop i).prod) (hnz : ∀ d ∈ shape, 1 ≤ d)
    (hdrop : out.drop i = (unravel p shape).drop i) :
    pos_to_nd_index_loop shape i pos out = .ok (unravel p shape) := by
  induction i generalizing pos out with
  | zero =>
    simp only [List.drop_zero] at hdrop
    simp [pos_to_nd_index_loop, hdrop]
  | succ i ih =>
    have h1 : i < shape.length := by omega
    have h2 : i < out.length := by omega
    have h3 : i < (unravel p shape).length := by rw [unravel_length]; omega
    have hd : shape.getD i 0 ≠ 0 := by
      have := hnz _ (getD_mem_of_lt shape i h1)
      omega
    rw [pos_to_nd_index_loop, vec_get_nat h1]
    simp only [hd, if_false]
    rw [vec_set_of_lt _ h2]
    simp only
    apply ih _ _ (by omega) (by simp [hlen])
    · rw [hpos, Nat.div_div_eq_div_mul, drop_eq_getD_cons shape i h1, List.prod_cons,
        Nat.mul_comm]
    · rw [drop_set_self _ _ _ h2, hdrop, drop_eq_getD_cons _ i h3, unravel_getD p shape i h1,
        hpos]

theorem pos_to_nd_index_spec (p : Nat) (shape : Shape) (hnz : ∀ d ∈ shape, 1 ≤ d) :
    pos_to_nd_index p shape = .ok (unravel p shape) := by
  unfold pos_to_nd_index
  apply pos_to_nd_index_loop_spec shape p _ _ _ (le_refl _) (by simp) _ hnz
  · rw [List.drop_of_length_le (by simp), List.drop_of_length_le (by simp [unravel_length])]
  · simp

/-! ## The two conversions are inverse to each other (over the natural numbers) -/

theorem index_dot_unravel (p : Nat) (s : Shape) :
    index_dot (unravel p s) (suffix_products s) = p % s.prod := by
  induction s with
  | nil => simp [unravel, suffix_products, index_dot, Nat.mod_one]
  | cons d ds ih =>
    simp only [unravel, suffix_products, index_dot, ih, List.prod_cons]
    rw [Nat.mul_comm d, Nat.mod_mul, Nat.mul_comm, Nat.add_comm]

theorem unravel_mod (p : Nat) (s : Shape) : unravel (p % s.prod) s = unravel p s := by
  induction s generalizing p with
  | nil => rfl
  | cons d ds ih =>
    simp only [unravel, List.prod_cons]
    rw [Nat.mod_mul_left_div_self, Nat.mod_mod, ← ih (p % (d * ds.prod)),
      Nat.mod_mul_left_mod, ih]

theorem inBounds_nil_right (idx : Shape) : InBounds idx [] ↔ idx = [] := by
  simp [InBounds]

theorem inBounds_cons (x d : Nat) (xs ds : Shape) :
    InBounds (x :: xs) (d :: ds) ↔ x < d ∧ InBounds xs ds := by
  unfold InBounds
  constructor
  · rintro ⟨h1, h2⟩
    refine ⟨by simpa using h2 0 (by simp), by simpa using h1, ?_⟩
    intro i hi
    simpa using h2 (i + 1) (by simpa using hi)
  · rintro ⟨h1, h2, h3⟩
    refine ⟨by simpa using h2, ?_⟩
    intro i hi
    cases i with
    | zero => simpa using h1
    | succ j => simpa using h3 j (by simpa using hi)

theorem inBounds_cons_right (idx : Shape) (d : Nat) (ds : Shape) (h : InBounds idx (d :: ds)) :
    ∃ x xs, idx = x :: xs ∧ x < d ∧ InBounds xs ds := by
  cases idx with
  | nil => simp [InBounds] at h
  | cons x xs => exact ⟨x, xs, rfl, (inBounds_cons x d xs ds).1 h⟩

theorem index_dot_lt_prod (idx s : Shape) (h : InBounds idx s) :
    index_dot idx (suffix_products s) < s.prod := by
  induction s generalizing idx with
  | nil =>
    rw [(inBounds_nil_right idx).1 h]
    simp [index_dot]
  | cons d ds ih =>
    obtain ⟨x, xs, rfl, hx, hxs⟩ := inBounds_cons_right idx d ds h
    have h1 := ih xs hxs
    simp only [suffix_products, index_dot, List.prod_cons]
    calc x * ds.prod + index_dot xs (suffix_products ds)
        < x * ds.prod + ds.prod := by omega
      _ = (x + 1) * ds.prod := by ring
      _ ≤ d * ds.prod := Nat.mul_le_mul_right _ hx

theorem unravel_index_dot (idx s : Shape) (h : InBounds idx s) :
    unravel (index_dot idx (suffix_products s)) s = idx := by
  induction s generalizing idx with
  | nil =>
    rw [(inBounds_nil_right idx).1 h]
    rfl
  | cons d ds ih =>
    obtain ⟨x, xs, rfl, hx, hxs⟩ := inBounds_cons_right idx d ds h
    have h1 := index_dot_lt_prod xs ds hxs
    have hR : 0 < ds.prod := by omega
    simp only [suffix_products, index_dot, unravel]
    have h2 : (x * ds.prod + index_dot xs (suffix_products ds)) / ds.prod = x := by
      rw [Nat.add_comm, Nat.add_mul_div_right _ _ hR, Nat.div_eq_of_lt h1, Nat.zero_add]
    have h3 : (x * ds.prod + index_dot xs (suffix_products ds)) % ds.prod =
        index_dot xs (suffix_products ds) := by
      rw [Nat.add_comm, Nat.add_mul_mod_self_right, Nat.mod_eq_of_lt h1]
    rw [h2, Nat.mod_eq_of_lt hx, ← unravel_mod, h3, ih xs hxs]

/-! ## Broadcasting -/

theorem compatible_iff (a b : Nat) : compatible a b ↔ ¬ (a ≠ 1 ∧ b ≠ 1 ∧ a ≠ b) := by
  unfold compatible
  omega

theorem getD_set_self (v : List Nat) (i x : Nat) (h : i < v.length) :
    (v.set i x).getD i 0 = x := by
  simp [List.getD_eq_getElem?_getD, List.getElem?_set, h]

theorem getD_set_ne (v : List Nat) (i j x : Nat) (h : i ≠ j) :
    (v.set i x).getD j 0 = v.getD j 0 := by
  simp [List.getD_eq_getElem?_getD, List.getElem?_set, h]

theorem eq_of_getD_eq (a b : List Nat) (hlen : a.length = b.length)
    (h : ∀ i, i < a.length → a.getD i 0 = b.getD i 0) : a = b := by
  apply List.ext_getElem hlen
  intro i h1 h2
  have := h i h1
  simpa [List.getD_eq_getElem?_getD, List.getElem?_eq_getElem h1,
    List.getElem?_eq_getElem h2] using this

theorem aligned_read (s : Shape) (i it : Nat) (h : i < s.length → it = i) :
    (if i < s.length then rev_get s it else .ok 1) = .ok (aligned_extent s i) := by
  unfold aligned_extent
  by_cases hi : i < s.length
  · rw [h hi]
    simp only [hi, if_true, rev_get]
    exact vec_get_nat (by omega)
  · simp [hi]

theorem shape_broadcast_loop_spec (s1 s2 : Shape) (n k i it1 it2 : Nat) (out : Shape)
    (hk : i + k = n) (h1 : i < s1.length → it1 = i) (h2 : i < s2.length → it2 = i)
    (hlen : out.length = n) :
    ((∀ j, i ≤ j → j < n → compatible (aligned_extent s1 j) (aligned_extent s2 j)) ∧
      ∃ res, shape_broadcast_loop s1 s2 k i it1 it2 i out = .ok res ∧ res.length = n ∧
        (∀ j, i ≤ j → j < n →
          res.getD (n - 1 - j) 0 = max (aligned_extent s1 j) (aligned_extent s2 j)) ∧
        (∀ j, j < i → res.getD (n - 1 - j) 0 = out.getD (n - 1 - j) 0)) ∨
    ((∃ j, i ≤ j ∧ j < n ∧ ¬ compatible (aligned_extent s1 j) (aligned_extent s2 j)) ∧
      shape_broadcast_loop s1 s2 k i it1 it2 i out =
        .error (.invalid_argument .cannot_broadcast)) := by
  induction k generalizing i it1 it2 out with
  | zero =>
    left
    refine ⟨fun j hj hjn => by omega, out, rfl, hlen, fun j hj hjn => by omega, fun j _ => rfl⟩
  | succ k ih =>
    rw [shape_broadcast_loop, aligned_read s1 i it1 h1, aligned_read s2 i it2 h2]
    simp only
    by_cases hc : compatible (aligned_extent s1 i) (aligned_extent s2 i)
    · have hc2 := (compatible_iff _ _).1 hc
      have hi : i < out.length := by omega
      have hi2 : out.length - 1 - i < out.length := by omega
      simp only [hc2, if_false, rev_set, hi, if_true]
      rw [vec_set_of_lt _ hi2]
      simp only
      have h1n : i + 1 < s1.length → (if i < s1.length then it1 + 1 else it1) = i + 1 := by
        intro h
        have : i < s1.length := by omega
        simp [this, h1 this]
      have h2n : i + 1 < s2.length → (if i < s2.length then it2 + 1 else it2) = i + 1 := by
        intro h
        have : i < s2.length := by omega
        simp [this, h2 this]
      rcases ih (i + 1) _ _ (out.set (out.length - 1 - i)
          (max (aligned_extent s1 i) (aligned_extent s2 i))) (by omega) h1n h2n
          (by simp [hlen]) with ⟨hall, res, hres, hrl, hnew, hold⟩ | ⟨⟨j, hj1, hj2, hj3⟩, herr⟩
      · left
        refine ⟨?_, res, hres, hrl, ?_, ?_⟩
        · intro j hj hjn
          by_cases hji : j = i
          · rw [hji]; exact hc
          · exact hall j (by omega) hjn
        · intro j hj hjn
          by_cases hji : j = i
          · rw [hji, hold i (by omega), ← hlen, getD_set_self _ _ _ hi2]
          · exact hnew j (by omega) hjn
        · intro j hj
          rw [hold j (by omega), getD_set_ne]
          omega
      · right
        exact ⟨⟨j, by omega, hj2, hj3⟩, herr⟩
    · have hc2 : aligned_extent s1 i ≠ 1 ∧ aligned_extent s2 i ≠ 1 ∧
          aligned_extent s1 i ≠ aligned_extent s2 i := by
        by_contra h
        exact hc ((compatible_iff _ _).2 h)
      right
      refine ⟨⟨i, le_refl _, by omega, hc⟩, ?_⟩
      rw [if_pos hc2]

theorem shape_broadcast_spec (s1 s2 : Shape) :
    ((∀ j, j < max s1.length s2.length →
        compatible (aligned_extent s1 j) (aligned_extent s2 j)) ∧
      ∃ res, shape_broadcast s1 s2 = .ok res ∧ res.length = max s1.length s2.length ∧
        ∀ j, j < max s1.length s2.length →
          res.getD (max s1.length s2.length - 1 - j) 0 =
            max (aligned_extent s1 j) (aligned_extent s2 j)) ∨
    ((∃ j, j < max s1.length s2.length ∧
        ¬ compatible (aligned_extent s1 j) (aligned_extent s2 j)) ∧
      shape_broadcast s1 s2 = .error (.invalid_argument .cannot_broadcast)) := by
  unfold shape_broadcast
  rcases shape_broadcast_loop_spec s1 s2 (max s1.length s2.length) (max s1.length s2.length)
      0 0 0 (List.replicate (max s1.length s2.length) 0) (by omega) (fun _ => rfl)
      (fun _ => rfl) (by simp) with
    ⟨hall, res, hres, hrl, hnew, _⟩ | ⟨⟨j, _, hj2, hj3⟩, herr⟩
  · left
    exact ⟨fun j hj => hall j (Nat.zero_le _) hj, res, hres, hrl,
      fun j hj => hnew j (Nat.zero_le _) hj⟩
  · right
    exact ⟨⟨j, hj2, hj3⟩, herr⟩

/-! ## Element access -/

theorem bounds_check_loop_spec (idx shape : Shape) (k i : Nat) (hk : i + k = idx.length)
    (hlen : idx.length = shape.length) :
    ((∀ j, i ≤ j → j < idx.length → idx.getD j 0 < shape.getD j 0) ∧
      bounds_check_loop idx shape k i = .ok ()) ∨
    (∃ j, i ≤ j ∧ j < idx.length ∧ shape.getD j 0 ≤ idx.getD j 0 ∧
      (∀ m, i ≤ m → m < j → idx.getD m 0 < shape.getD m 0) ∧
      bounds_check_loop idx shape k i = .error (.out_of_range_index j)) := by
  induction k generalizing i with
  | zero =>
    left
    exact ⟨fun j hj hjn => by omega, rfl⟩
  | succ k ih =>
    rw [bounds_check_loop, vec_get_nat (by omega), vec_get_nat (by omega)]
    simp only
    by_cases hge : idx.getD i 0 ≥ shape.getD i 0
    · right
      refine ⟨i, le_refl _, by omega, hge, fun m h1 h2 => by omega, ?_⟩
      rw [if_pos hge]
    · rw [if_neg hge]
      rcases ih (i + 1) (by omega) with ⟨hall, hok⟩ | ⟨j, hj1, hj2, hj3, hj4, herr⟩
      · left
        refine ⟨?_, hok⟩
        intro j hj hjn
        by_cases hji : j = i
        · rw [hji]; omega
        · exact hall j (by omega) hjn
      · right
        refine ⟨j, by omega, hj2, hj3, ?_, herr⟩
        intro m hm1 hm2
        by_cases hmi : m = i
        · rw [hmi]; omega
        · exact hj4 m (by omega) hm2

/-! ## Element-wise loops -/

theorem elementwise_loop_spec {α : Type} (op : α → α → α) (d1 d2 : List α) (n k i : Nat)
    (d3 : List α) (hk : i + k = n) (h1 : d1.length = n) (h2 : d2.length = n)
    (h3 : d3.length = n) (hpre : ∀ j, j < i → d3[j]? = (List.zipWith op d1 d2)[j]?) :
    elementwise_loop op d1 d2 k i d3 = .ok (List.zipWith op d1 d2) := by
  induction k generalizing i d3 with
  | zero =>
    have hd : d3 = List.zipWith op d1 d2 := by
      apply List.ext_getElem?
      intro j
      by_cases hj : j < i
      · exact hpre j hj
      · have e1 : d3[j]? = none := List.getElem?_eq_none (by omega)
        have e2 : (List.zipWith op d1 d2)[j]? = none :=
          List.getElem?_eq_none (by simp [List.length_zipWith]; omega)
        rw [e1, e2]
    simp [elementwise_loop, hd]
  | succ k ih =>
    have hi1 : i < d1.length := by omega
    have hi2 : i < d2.length := by omega
    have hi3 : i < d3.length := by omega
    rw [elementwise_loop, vec_get_of_getElem? (List.getElem?_eq_getElem hi1),
      vec_get_of_getElem? (List.getElem?_eq_getElem hi2)]
    simp only
    rw [vec_set_of_lt _ hi3]
    simp only
    apply ih (i + 1) _ (by omega) (by simp [h3])
    intro j hj
    by_cases hji : j = i
    · subst hji
      have hz : j < (List.zipWith op d1 d2).length := by
        simp [List.length_zipWith]; omega
      rw [List.getElem?_set, List.getElem?_eq_getElem hz]
      simp [hi3]
    · rw [List.getElem?_set, if_neg (by omega)]
      exact hpre j (by omega)

/-! ## The constructor, element access and the element-wise functions in closed form -/

theorem NDArray_new_inv {α : Type} (data : List α) (shape : Shape) (a : NDArray α)
    (h : NDArray.new data shape = .ok a) :
    1 ≤ shape.length ∧
      a = ⟨data, shape, row_major_strides shape, shape.length, data.length⟩ := by
  cases shape with
  | nil =>
    rw [NDArray_new_rank_zero] at h
    cases h
  | cons d ds =>
    have h1 : 1 ≤ (d :: ds).length := by simp
    rw [NDArray_new_spec data (d :: ds) h1] at h
    cases h
    exact ⟨h1, rfl⟩

theorem row_major_offset_eq (idx shape : Shape) :
    row_major_offset idx shape = index_dot idx (suffix_products shape) ∨
      idx.length < shape.length := by
  induction shape generalizing idx with
  | nil =>
    left
    cases idx <;> simp [row_major_offset, suffix_products, index_dot]
  | cons d ds ih =>
    cases idx with
    | nil => right; simp
    | cons x xs =>
      rcases ih xs with h | h
      · left
        simp only [suffix_products, index_dot]
        rw [← h]
        simp [row_major_offset, List.range_succ_eq_map, Function.comp_def]
      · right
        simpa using h

theorem operator_parenthesis_spec {α : Type} (data : List α) (shape idx : Shape) :
    (idx.length ≠ shape.length ∧
      NDArray._operator_parenthesis
        (⟨data, shape, row_major_strides shape, shape.length, data.length⟩ : NDArray α) idx =
          .error .out_of_range_ndim) ∨
    (InBounds idx shape ∧
      NDArray._operator_parenthesis
        (⟨data, shape, row_major_strides shape, shape.length, data.length⟩ : NDArray α) idx =
          .ok (index_dot idx (suffix_products shape) % SIZE_MOD)) ∨
    (idx.length = shape.length ∧ ∃ j, j < idx.length ∧ shape.getD j 0 ≤ idx.getD j 0 ∧
      (∀ m, m < j → idx.getD m 0 < shape.getD m 0) ∧
      NDArray._operator_parenthesis
        (⟨data, shape, row_major_strides shape, shape.length, data.length⟩ : NDArray α) idx =
          .error (.out_of_range_index j)) := by
  unfold NDArray._operator_parenthesis
  simp only [NDArray.ndim, NDArray.shape, NDArray.strides]
  by_cases hlen : idx.length = shape.length
  · right
    rw [if_neg (by simpa using hlen)]
    rcases bounds_check_loop_spec idx shape idx.length 0 (by omega) hlen with
      ⟨hall, hok⟩ | ⟨j, _, hj2, hj3, hj4, herr⟩
    · left
      rw [hok]
      refine ⟨⟨hlen, fun i hi => hall i (Nat.zero_le _) (by omega)⟩, ?_⟩
      exact nd_index_to_pos_row_major idx shape hlen
    · right
      rw [herr]
      exact ⟨hlen, j, hj2, hj3, fun m hm => hj4 m (Nat.zero_le _) hm, rfl⟩
  · left
    exact ⟨hlen, by rw [if_pos hlen]⟩

theorem add_spec {α : Type} [Zero α] [Add α] (d1 d2 : List α) (s1 s2 : Shape)
    (st2 : Strides) (n2 : Nat) (hrank : 1 ≤ s1.length) (hlen : d1.length = d2.length) :
    add (⟨d1, s1, row_major_strides s1, s1.length, d1.length⟩ : Tensor α)
        ⟨d2, s2, st2, n2, d2.length⟩ =
      .ok ⟨List.zipWith (fun x y => x + y) d1 d2, s1, row_major_strides s1, s1.length,
        d1.length⟩ := by
  unfold add
  simp only [NDArray.size, NDArray.shape, NDArray.data, Tensor.new]
  rw [if_neg (by simpa using hlen), NDArray_new_spec _ s1 hrank]
  simp only
  rw [elementwise_loop_spec _ d1 d2 d1.length d1.length 0 _ (by omega) rfl hlen.symm
    (by simp) (fun j hj => by omega)]
  simp

theorem mul_spec {α : Type} [Zero α] [Mul α] (d1 d2 : List α) (s1 s2 : Shape)
    (st2 : Strides) (n2 : Nat) (hrank : 1 ≤ s1.length) (hlen : d1.length = d2.length) :
    mul (⟨d1, s1, row_major_strides s1, s1.length, d1.length⟩ : Tensor α)
        ⟨d2, s2, st2, n2, d2.length⟩ =
      .ok ⟨List.zipWith (fun x y => x * y) d1 d2, s1, row_major_strides s1, s1.length,
        d1.length⟩ := by
  unfold mul
  simp only [NDArray.size, NDArray.shape, NDArray.data, Tensor.new]
  rw [if_neg (by simpa using hlen), NDArray_new_spec _ s1 hrank]
  simp only
  rw [elementwise_loop_spec _ d1 d2 d1.length d1.length 0 _ (by omega) rfl hlen.symm
    (by simp) (fun j hj => by omega)]
  simp

theorem operator_call_spec {α : Type} (data : List α) (shape idx : Shape)
    (hsize : data.length = shape.prod) (hsz : data.length < SIZE_MOD)
    (hidx : InBounds idx shape) :
    ∃ x, data[row_major_offset idx shape]? = some x ∧
      NDArray.operator_call
        (⟨data, shape, row_major_strides shape, shape.length, data.length⟩ : NDArray α) idx =
          .ok x := by
  have hlt := index_dot_lt_prod idx shape hidx
  have hoff : row_major_offset idx shape = index_dot idx (suffix_products shape) := by
    rcases row_major_offset_eq idx shape with h | h
    · exact h
    · have := hidx.1
      omega
  have hin : row_major_offset idx shape < data.length := by omega
  refine ⟨data[row_major_offset idx shape], List.getElem?_eq_getElem hin, ?_⟩
  unfold NDArray.operator_call
  rcases operator_parenthesis_spec data shape idx with
    ⟨hne, _⟩ | ⟨_, hres⟩ | ⟨_, j, hj1, hj2, _, _⟩
  · exact absurd hidx.1 hne
  · rw [hres, Nat.mod_eq_of_lt (by omega), ← hoff]
    simp only [NDArray.data]
    exact vec_get_of_getElem? (List.getElem?_eq_getElem hin)
  · have := hidx.2 j (by have := hidx.1; omega)
    omega

theorem broadcast_nil_left (s : Shape) :
    shape_broadcast [] s = .ok (s.map (fun d => max 1 d)) := by
  rcases shape_broadcast_spec [] s with ⟨_, res, hres, hrl, hnew⟩ | ⟨⟨j, _, hj⟩, _⟩
  · rw [hres]
    congr 1
    simp only [List.length_nil, Nat.zero_max] at hrl hnew
    apply eq_of_getD_eq _ _ (by simp [hrl])
    intro i hi
    have h1 := hnew (s.length - 1 - i) (by omega)
    have h2 : s.length - 1 - (s.length - 1 - i) = i := by omega
    rw [h2] at h1
    have h3 : s.length - 1 - i < s.length := by omega
    rw [h1]
    simp only [aligned_extent, List.length_nil, Nat.not_lt_zero, if_false, h3, if_true, h2]
    have h4 : i < s.length := by omega
    simp [List.getD_eq_getElem?_getD, List.getElem?_eq_getElem h4]
  · exact absurd (Or.inr (Or.inl (by simp [aligned_extent]))) hj

theorem broadcast_nil_right (s : Shape) :
    shape_broadcast s [] = .ok (s.map (fun d => max 1 d)) := by
  rcases shape_broadcast_spec s [] with ⟨_, res, hres, hrl, hnew⟩ | ⟨⟨j, _, hj⟩, _⟩
  · rw [hres]
    congr 1
    simp only [List.length_nil, Nat.max_zero] at hrl hnew
    apply eq_of_getD_eq _ _ (by simp [hrl])
    intro i hi
    have h1 := hnew (s.length - 1 - i) (by omega)
    have h2 : s.length - 1 - (s.length - 1 - i) = i := by omega
    rw [h2] at h1
    have h3 : s.length - 1 - i < s.length := by omega
    rw [h1]
    simp only [aligned_extent, List.length_nil, Nat.not_lt_zero, if_false, h3, if_true, h2]
    have h4 : i < s.length := by omega
    simp [List.getD_eq_getElem?_getD, List.getElem?_eq_getElem h4, Nat.max_comm]
  · exact absurd (Or.inr (Or.inr (by simp [aligned_extent]))) hj

theorem map_max_one_of_positive (s : Shape) (h : PositiveExtents s) :
    s.map (fun d => max 1 d) = s := by
  induction s with
  | nil => rfl
  | cons d ds ih =>
    have h1 : 1 ≤ d := h d (by simp)
    have h2 : PositiveExtents ds := fun e he => h e (by simp [he])
    simp [ih h2, h1]

/-! ## Claims C1 to C4: index arithmetic and strides -/

/-- C1: round trip offset -> coordinates -> offset. For every buffer, every shape `s` of
rank at least 1 whose extents are all at least 1 and every `size_t` offset `p` below the
product of the extents, the constructor succeeds, `pos_to_nd_index p s` returns some
index vector, and `nd_index_to_pos` of that vector and the constructor's strides
returns `p` again. -/
theorem C1_offset_roundtrip {α : Type} (data : List α) (s : Shape) (p : Nat)
    (hrank : 1 ≤ s.length) (hext : PositiveExtents s) (hp : p < s.prod)
    (hsz : p < SIZE_MOD) :
    ∃ a idx, NDArray.new data s = .ok a ∧ pos_to_nd_index p s = .ok idx ∧
      nd_index_to_pos idx a.strides = .ok p := by
  refine ⟨_, _, NDArray_new_spec data s hrank, pos_to_nd_index_spec p s hext, ?_⟩
  simp only [NDArray.strides]
  rw [nd_index_to_pos_row_major _ _ (unravel_length p s), index_dot_unravel,
    Nat.mod_eq_of_lt hp, Nat.mod_eq_of_lt hsz]

/-- Witness of C1 at shape `[2, 3, 4]` and offset `17`. -/
theorem C1_offset_roundtrip_witness :
    (1 ≤ [2, 3, 4].length ∧ PositiveExtents [2, 3, 4] ∧ 17 < [2, 3, 4].prod ∧ 17 < SIZE_MOD) ∧
    ∃ a idx, NDArray.new ([] : List Nat) [2, 3, 4] = .ok a ∧
      pos_to_nd_index 17 [2, 3, 4] = .ok idx ∧ nd_index_to_pos idx a.strides = .ok 17 :=
  ⟨by decide, C1_offset_roundtrip [] [2, 3, 4] 17 (by decide) (by decide) (by decide)
    (by decide)⟩

/-- C2 as stated fails when the product of the extents does not fit a `size_t`: for the
shape `[2^63, 4]` (strides `[4, 1]`) the in-bounds index `[2^62, 0]` has offset
`2^62 * 4 = 2^64`, which wraps to `0`, and `pos_to_nd_index 0` is `[0, 0]`. -/
theorem C2_counterexample :
    PositiveExtents [9223372036854775808, 4] ∧
    InBounds [4611686018427387904, 0] [9223372036854775808, 4] ∧
    NDArray.new ([] : List Nat) [9223372036854775808, 4] =
      .ok ⟨[], [9223372036854775808, 4], [4, 1], 2, 0⟩ ∧
    nd_index_to_pos [4611686018427387904, 0] [4, 1] = .ok 0 ∧
    pos_to_nd_index 0 [9223372036854775808, 4] = .ok [0, 0] ∧
    pos_to_nd_index 0 [9223372036854775808, 4] ≠ .ok [4611686018427387904, 0] := by
  decide

/-- C2 (amended): `pos_to_nd_index` inverts `nd_index_to_pos` on in-bounds indices when the
product of the extents is at most `2^64`. For every buffer, every shape `s` of rank at
least 1 with all extents at least 1 and product at most `SIZE_MOD`, and every index
vector `idx` of the same length with `idx[i] < s[i]`, the constructor succeeds,
`nd_index_to_pos idx strides` returns an offset `p`, and `pos_to_nd_index p s` returns
`idx`. -/
theorem C2_index_roundtrip {α : Type} (data : List α) (s idx : Shape)
    (hrank : 1 ≤ s.length) (hext : PositiveExtents s) (hidx : InBounds idx s)
    (hfit : s.prod ≤ SIZE_MOD) :
    ∃ a p, NDArray.new data s = .ok a ∧ nd_index_to_pos idx a.strides = .ok p ∧
      pos_to_nd_index p s = .ok idx := by
  have hlt := index_dot_lt_prod idx s hidx
  refine ⟨_, index_dot idx (suffix_products s), NDArray_new_spec data s hrank, ?_, ?_⟩
  · simp only [NDArray.strides]
    rw [nd_index_to_pos_row_major _ _ hidx.1, Nat.mod_eq_of_lt (by omega)]
  · rw [pos_to_nd_index_spec _ s hext, unravel_index_dot idx s hidx]

/-- Witness of the amended C2 at shape `[2, 3, 4]` and index `[1, 2, 3]`. -/
theorem C2_index_roundtrip_witness :
    (1 ≤ [2, 3, 4].length ∧ PositiveExtents [2, 3, 4] ∧ InBounds [1, 2, 3] [2, 3, 4] ∧
      [2, 3, 4].prod ≤ SIZE_MOD) ∧
    ∃ a p, NDArray.new ([] : List Nat) [2, 3, 4] = .ok a ∧
      nd_index_to_pos [1, 2, 3] a.strides = .ok p ∧ pos_to_nd_index p [2, 3, 4] = .ok [1, 2, 3] :=
  ⟨by decide, C2_index_roundtrip [] [2, 3, 4] [1, 2, 3] (by decide) (by decide) (by decide)
    (by decide)⟩

/-- C3 as stated fails when a product of extents overflows a `size_t`: for the shape
`[1, 2^32, 2^32]` the constructor stores the strides `[0, 2^32, 1]`, and
`strides[0] = 0` differs from `shape[1] * strides[1] = 2^64`. -/
theorem C3_counterexample :
    NDArray.new ([] : List Nat) [1, 4294967296, 4294967296] =
      .ok ⟨[], [1, 4294967296, 4294967296], [0, 4294967296, 1], 3, 0⟩ ∧
    [0, 4294967296, 1].getD 0 0 ≠
      [1, 4294967296, 4294967296].getD 1 0 * [0, 4294967296, 1].getD 1 0 := by
  decide

/-- C3 (amended): for every buffer and every shape of rank at least 1 the constructor
succeeds, the strides have the length of the shape, `strides[rank-1] = 1`, and for every
`i` with `i + 1 < rank`, `strides[i]` is `shape[i+1] * strides[i+1]` reduced modulo `2^64`
(the `size_t` product); the unreduced equation holds whenever that product is below
`2^64`. -/
theorem C3_constructor_strides {α : Type} (data : List α) (s : Shape)
    (hrank : 1 ≤ s.length) :
    ∃ a, NDArray.new data s = .ok a ∧ a.strides.length = s.length ∧
      a.strides.getD (s.length - 1) 0 = 1 ∧
      (∀ i, i + 1 < s.length →
        a.strides.getD i 0 = (s.getD (i + 1) 0 * a.strides.getD (i + 1) 0) % SIZE_MOD) ∧
      (∀ i, i + 1 < s.length → s.getD (i + 1) 0 * a.strides.getD (i + 1) 0 < SIZE_MOD →
        a.strides.getD i 0 = s.getD (i + 1) 0 * a.strides.getD (i + 1) 0) := by
  refine ⟨_, NDArray_new_spec data s hrank, ?_, ?_, ?_, ?_⟩
  · exact row_major_strides_length s
  · simp only [NDArray.strides]
    rw [row_major_strides_getD s _ (by omega)]
    have h1 : s.length - 1 + 1 = s.length := by omega
    rw [h1, List.drop_of_length_le (le_refl _)]
    simp [SIZE_MOD]
  · intro i hi
    simp only [NDArray.strides]
    exact row_major_strides_step s i hi
  · intro i hi hlt
    simp only [NDArray.strides] at hlt ⊢
    rw [row_major_strides_step s i hi, size_mul, Nat.mod_eq_of_lt hlt]

/-- Witness of the amended C3 at the shape `[2, 2, 3]` of the test `Build3DArray`. -/
theorem C3_constructor_strides_witness :
    1 ≤ [2, 2, 3].length ∧
    ∃ a, NDArray.new ([] : List Nat) [2, 2, 3] = .ok a ∧ a.strides.length = [2, 2, 3].length ∧
      a.strides.getD ([2, 2, 3].length - 1) 0 = 1 ∧
      (∀ i, i + 1 < [2, 2, 3].length →
        a.strides.getD i 0 =
          ([2, 2, 3].getD (i + 1) 0 * a.strides.getD (i + 1) 0) % SIZE_MOD) ∧
      (∀ i, i + 1 < [2, 2, 3].length →
        [2, 2, 3].getD (i + 1) 0 * a.strides.getD (i + 1) 0 < SIZE_MOD →
        a.strides.getD i 0 = [2, 2, 3].getD (i + 1) 0 * a.strides.getD (i + 1) 0) :=
  ⟨by decide, C3_constructor_strides [] [2, 2, 3] (by decide)⟩

/-- C4 as stated fails when the sum does not fit a `size_t`: for indices `[2^63]` and
strides `[2]` the function returns `0`, while the sum of `indices[i] * strides[i]` is
`2^64`. -/
theorem C4_counterexample :
    nd_index_to_pos [9223372036854775808] [2] = .ok 0 ∧
    index_dot [9223372036854775808] [2] = 18446744073709551616 ∧
    nd_index_to_pos [9223372036854775808] [2] ≠
      .ok (index_dot [9223372036854775808] [2]) := by
  decide

/-- C4 (amended): `nd_index_to_pos indices strides` fails if and only if the two lengths
differ, and then with `std::invalid_argument` (rank mismatch); otherwise it returns the
sum of `indices[i] * strides[i]` reduced modulo `2^64` (hence the sum itself whenever the
sum is below `2^64`), whatever the indices are: no shape is consulted. -/
theorem C4_nd_index_to_pos (indices : Shape) (strides : Strides) :
    ((∃ e, nd_index_to_pos indices strides = .error e) ↔ indices.length ≠ strides.length) ∧
    (indices.length ≠ strides.length →
      nd_index_to_pos indices strides = .error (.invalid_argument .rank_mismatch)) ∧
    (indices.length = strides.length →
      nd_index_to_pos indices strides = .ok (index_dot indices strides % SIZE_MOD)) ∧
    (indices.length = strides.length → index_dot indices strides < SIZE_MOD →
      nd_index_to_pos indices strides = .ok (index_dot indices strides)) := by
  have hne : indices.length ≠ strides.length →
      nd_index_to_pos indices strides = .error (.invalid_argument .rank_mismatch) := by
    intro h
    simp [nd_index_to_pos, h]
  refine ⟨⟨?_, fun h => ⟨_, hne h⟩⟩, hne, nd_index_to_pos_spec indices strides, ?_⟩
  · rintro ⟨e, he⟩ heq
    rw [nd_index_to_pos_spec indices strides heq] at he
    cases he
  · intro heq hlt
    rw [nd_index_to_pos_spec indices strides heq, Nat.mod_eq_of_lt hlt]

/-- Instance of the amended C4 at the indices `[1, 3, 2, 1]` and strides `[24, 8, 2, 1]` of the
test `NdIndexToPos`: the lengths agree and the result is `53`. -/
theorem C4_nd_index_to_pos_witness :
    nd_index_to_pos [1, 3, 2, 1] [24, 8, 2, 1] = .ok 53 :=
  ((C4_nd_index_to_pos [1, 3, 2, 1] [24, 8, 2, 1]).2.2.2 (by decide) (by decide)).trans
    (by decide)

/-! ## Claims C5 to C7: broadcasting -/

/-- C5: whenever `shape_broadcast shape_1 shape_2` succeeds with `out`, the length of `out`
is the larger of the two ranks and, counting axes from the right with the shorter shape
padded by virtual leading ones, each extent of `out` is the maximum of the two aligned
extents. -/
theorem C5_broadcast_extents (shape_1 shape_2 out : Shape)
    (h : shape_broadcast shape_1 shape_2 = .ok out) :
    out.length = max shape_1.length shape_2.length ∧
    ∀ j, j < max shape_1.length shape_2.length →
      out.getD (out.length - 1 - j) 0 =
        max (aligned_extent shape_1 j) (aligned_extent shape_2 j) := by
  rcases shape_broadcast_spec shape_1 shape_2 with ⟨_, res, hres, hrl, hnew⟩ | ⟨_, herr⟩
  · rw [hres] at h
    cases h
    refine ⟨hrl, ?_⟩
    intro j hj
    rw [hrl]
    exact hnew j hj
  · rw [herr] at h
    cases h

/-- Witness of C5 at the shapes `[8, 1, 6, 1]` and `[7, 1, 5]` of the test
`HigherDimensionalBroadcasting`. -/
theorem C5_broadcast_extents_witness :
    shape_broadcast [8, 1, 6, 1] [7, 1, 5] = .ok [8, 7, 6, 5] ∧
    ([8, 7, 6, 5].length = max [8, 1, 6, 1].length [7, 1, 5].length ∧
    ∀ j, j < max [8, 1, 6, 1].length [7, 1, 5].length →
      [8, 7, 6, 5].getD ([8, 7, 6, 5].length - 1 - j) 0 =
        max (aligned_extent [8, 1, 6, 1] j) (aligned_extent [7, 1, 5] j)) :=
  ⟨by decide, C5_broadcast_extents [8, 1, 6, 1] [7, 1, 5] [8, 7, 6, 5] (by decide)⟩

/-- C6: `shape_broadcast shape_1 shape_2` succeeds if and only if every right-aligned pair
of extents, with the shorter shape padded by virtual leading ones, is compatible (equal,
or one of the two is 1); when it does not succeed it throws `std::invalid_argument`
("Tensor shapes cannot be broadcasted."). -/
theorem C6_broadcast_succeeds_iff (shape_1 shape_2 : Shape) :
    ((∃ out, shape_broadcast shape_1 shape_2 = .ok out) ↔
      ∀ j, j < max shape_1.length shape_2.length →
        compatible (aligned_extent shape_1 j) (aligned_extent shape_2 j)) ∧
    ((¬ ∃ out, shape_broadcast shape_1 shape_2 = .ok out) →
      shape_broadcast shape_1 shape_2 = .error (.invalid_argument .cannot_broadcast)) := by
  rcases shape_broadcast_spec shape_1 shape_2 with
    ⟨hall, res, hres, _, _⟩ | ⟨⟨j, hj1, hj2⟩, herr⟩
  · exact ⟨⟨fun _ => hall, fun _ => ⟨res, hres⟩⟩, fun hno => absurd ⟨res, hres⟩ hno⟩
  · refine ⟨⟨?_, fun hall => absurd (hall j hj1) hj2⟩, fun _ => herr⟩
    rintro ⟨out, hout⟩
    rw [herr] at hout
    cases hout

/-- Instances of C6 at the shapes of the tests: `[8, 1, 6, 1]` and `[7, 1, 5]` are
compatible at every aligned axis and the call succeeds; `[3, 3, 4]` and `[2, 3, 1]` are
not compatible at the leftmost axis and the call throws. -/
theorem C6_broadcast_succeeds_iff_witness :
    (∃ out, shape_broadcast [8, 1, 6, 1] [7, 1, 5] = .ok out) ∧
    ¬ compatible (aligned_extent [3, 3, 4] 2) (aligned_extent [2, 3, 1] 2) ∧
    shape_broadcast [3, 3, 4] [2, 3, 1] = .error (.invalid_argument .cannot_broadcast) :=
  ⟨(C6_broadcast_succeeds_iff [8, 1, 6, 1] [7, 1, 5]).1.2 (by decide), by decide,
    (C6_broadcast_succeeds_iff [3, 3, 4] [2, 3, 1]).2
      (fun h => absurd ((C6_broadcast_succeeds_iff [3, 3, 4] [2, 3, 1]).1.1 h) (by decide))⟩

/-- C7 as stated fails at a shape with a zero extent: broadcasting the empty shape with
`[0]`, on either side, returns `[1]` and not `[0]`. -/
theorem C7_counterexample :
    shape_broadcast [] [0] = .ok [1] ∧ shape_broadcast [0] [] = .ok [1] ∧
    shape_broadcast [] [0] ≠ .ok [0] ∧ shape_broadcast [0] [] ≠ .ok [0] := by
  decide

/-- C7 (amended): the empty shape is an identity for broadcasting on shapes without a
zero extent. For every shape `s` whose extents are all at least 1,
`shape_broadcast [] s` and `shape_broadcast s []` both succeed and return `s` unchanged;
`shape_broadcast [] []` returns `[]`. -/
theorem C7_broadcast_empty_identity (s : Shape) (h : PositiveExtents s) :
    shape_broadcast [] s = .ok s ∧ shape_broadcast s [] = .ok s ∧
    shape_broadcast [] [] = .ok [] := by
  have h1 := broadcast_nil_left s
  have h2 := broadcast_nil_right s
  rw [map_max_one_of_positive s h] at h1 h2
  exact ⟨h1, h2, broadcast_nil_left []⟩

/-- Witness of the amended C7 at the shape `[3, 4]` of the test `ScalarBroadcasting`. -/
theorem C7_broadcast_empty_identity_witness :
    PositiveExtents [3, 4] ∧ shape_broadcast [] [3, 4] = .ok [3, 4] ∧
      shape_broadcast [3, 4] [] = .ok [3, 4] ∧ shape_broadcast [] [] = .ok [] :=
  ⟨by decide, C7_broadcast_empty_identity [3, 4] (by decide)⟩

theorem operator_call_offset {α : Type} (data : List α) (shape idx : Shape)
    (hidx : InBounds idx shape) :
    ∃ p, p < shape.prod ∧
      NDArray._operator_parenthesis
        (⟨data, shape, row_major_strides shape, shape.length, data.length⟩ : NDArray α) idx =
          .ok p ∧
      NDArray.operator_call
        (⟨data, shape, row_major_strides shape, shape.length, data.length⟩ : NDArray α) idx =
          vec_get data p := by
  have hlt := index_dot_lt_prod idx shape hidx
  have hle : index_dot idx (suffix_products shape) % SIZE_MOD < shape.prod :=
    lt_of_le_of_lt (Nat.mod_le _ _) hlt
  rcases operator_parenthesis_spec data shape idx with
    ⟨hne, _⟩ | ⟨_, hres⟩ | ⟨_, j, hj1, hj2, _, _⟩
  · exact absurd hidx.1 hne
  · refine ⟨_, hle, hres, ?_⟩
    unfold NDArray.operator_call
    rw [hres]
    rfl
  · have := hidx.2 j (by have := hidx.1; omega)
    omega

/-! ## Claims C8 and C9: element access -/

/-- C8 as stated fails in its last clause: the constructor does not compare the buffer
length with the shape, and for the array built from the buffer `[1, 2, 3]` and the shape
`{2, 3}` the access at `(1, 2)` passes both checks (`k = ndim()`, every index in bounds),
computes the offset `5` and reads `data()[5]` outside the buffer of 3 elements: it does
not succeed. -/
theorem C8_counterexample :
    NDArray.new [1, 2, 3] [2, 3] = .ok (⟨[1, 2, 3], [2, 3], [3, 1], 2, 3⟩ : NDArray Int) ∧
    [1, 2].length = NDArray.ndim (⟨[1, 2, 3], [2, 3], [3, 1], 2, 3⟩ : NDArray Int) ∧
    InBounds [1, 2] [2, 3] ∧
    NDArray._operator_parenthesis (⟨[1, 2, 3], [2, 3], [3, 1], 2, 3⟩ : NDArray Int) [1, 2] =
      .ok 5 ∧
    NDArray.operator_call (⟨[1, 2, 3], [2, 3], [3, 1], 2, 3⟩ : NDArray Int) [1, 2] =
      .error .undefined_behaviour := by
  decide

/-- C8 (amended): multi-index element access on an array built by the constructor, with
`k ≥ 1` supplied indices. The access throws the rank-mismatch `std::out_of_range` if and
only if `k` differs from `ndim()`; when `k = ndim()` it throws the index
`std::out_of_range` if and only if some `indices[i] ≥ shape[i]`, and the axis named in the
error is the smallest such `i`; in all other cases no exception is thrown,
`_operator_parenthesis` yields an offset, and the access succeeds, returning an element of
the buffer, whenever the buffer length is at least the product of the extents (the only
failure left is the read outside a buffer shorter than that product). `operator()` throws
exactly the exceptions of `_operator_parenthesis`. -/
theorem C8_element_access_errors {α : Type} (data : List α) (shape idx_vec : Shape)
    (a : NDArray α) (ha : NDArray.new data shape = .ok a) (_hk : 1 ≤ idx_vec.length) :
    (a._operator_parenthesis idx_vec = .error .out_of_range_ndim ↔
      idx_vec.length ≠ a.ndim) ∧
    (idx_vec.length = a.ndim →
      ((∃ i, a._operator_parenthesis idx_vec = .error (.out_of_range_index i)) ↔
        ∃ i, i < idx_vec.length ∧ a.shape.getD i 0 ≤ idx_vec.getD i 0) ∧
      (∀ i, a._operator_parenthesis idx_vec = .error (.out_of_range_index i) →
        i < idx_vec.length ∧ a.shape.getD i 0 ≤ idx_vec.getD i 0 ∧
          ∀ m, m < i → idx_vec.getD m 0 < a.shape.getD m 0)) ∧
    (idx_vec.length = a.ndim →
      (∀ i, i < idx_vec.length → idx_vec.getD i 0 < a.shape.getD i 0) →
      ∃ p, a._operator_parenthesis idx_vec = .ok p) ∧
    (∀ e, e ≠ Exn.undefined_behaviour →
      (a.operator_call idx_vec = .error e ↔ a._operator_parenthesis idx_vec = .error e)) ∧
    (idx_vec.length = a.ndim →
      (∀ i, i < idx_vec.length → idx_vec.getD i 0 < a.shape.getD i 0) →
      a.shape.prod ≤ a.size →
      ∃ x, a.operator_call idx_vec = .ok x) ∧
    (idx_vec.length = a.ndim →
      (∀ i, i < idx_vec.length → idx_vec.getD i 0 < a.shape.getD i 0) →
      ∀ e, a.operator_call idx_vec = .error e →
        e = Exn.undefined_behaviour ∧ a.size < a.shape.prod) := by
  obtain ⟨_, rfl⟩ := NDArray_new_inv data shape a ha
  simp only [NDArray.ndim, NDArray.shape, NDArray.size]
  have hcall : ∀ e, e ≠ Exn.undefined_behaviour →
      (NDArray.operator_call
          (⟨data, shape, row_major_strides shape, shape.length, data.length⟩ : NDArray α)
          idx_vec = .error e ↔
        NDArray._operator_parenthesis
          (⟨data, shape, row_major_strides shape, shape.length, data.length⟩ : NDArray α)
          idx_vec = .error e) := by
    intro e he
    unfold NDArray.operator_call
    cases hres : NDArray._operator_parenthesis
        (⟨data, shape, row_major_strides shape, shape.length, data.length⟩ : NDArray α)
        idx_vec with
    | error e2 => simp
    | ok p =>
      simp only [vec_get, NDArray.data]
      cases data[p]? with
      | none =>
        simp only [reduceCtorEq, iff_false]
        intro h
        cases h
        exact he rfl
      | some x => simp
  have hval : idx_vec.length = shape.length →
      (∀ i, i < idx_vec.length → idx_vec.getD i 0 < shape.getD i 0) →
      shape.prod ≤ data.length →
      ∃ x, NDArray.operator_call
        (⟨data, shape, row_major_strides shape, shape.length, data.length⟩ : NDArray α)
        idx_vec = .ok x := by
    intro hlen hall hsize
    obtain ⟨p, hp, _, hcallp⟩ := operator_call_offset data shape idx_vec
      ⟨hlen, fun i hi => hall i (by omega)⟩
    rw [hcallp]
    have hpl : p < data.length := by omega
    exact ⟨_, vec_get_of_getElem? (List.getElem?_eq_getElem hpl)⟩
  have hfail : idx_vec.length = shape.length →
      (∀ i, i < idx_vec.length → idx_vec.getD i 0 < shape.getD i 0) →
      ∀ e, NDArray.operator_call
        (⟨data, shape, row_major_strides shape, shape.length, data.length⟩ : NDArray α)
        idx_vec = .error e → e = Exn.undefined_behaviour ∧ data.length < shape.prod := by
    intro hlen hall e he
    obtain ⟨p, hp, _, hcallp⟩ := operator_call_offset data shape idx_vec
      ⟨hlen, fun i hi => hall i (by omega)⟩
    rw [hcallp] at he
    by_cases hpl : p < data.length
    · rw [vec_get_of_getElem? (List.getElem?_eq_getElem hpl)] at he
      cases he
    · have hnone : data[p]? = none := List.getElem?_eq_none (by omega)
      simp only [vec_get, hnone] at he
      cases he
      exact ⟨rfl, by omega⟩
  rcases operator_parenthesis_spec data shape idx_vec with
    ⟨hne, hres⟩ | ⟨⟨hlen, hall⟩, hres⟩ | ⟨hlen, j, hj1, hj2, hj3, hres⟩
  · exact ⟨⟨fun _ => hne, fun _ => hres⟩, fun h => absurd h hne, fun h => absurd h hne,
      hcall, hval, hfail⟩
  · refine ⟨?_, fun _ => ⟨?_, ?_⟩, fun _ _ => ⟨_, hres⟩, hcall, hval, hfail⟩
    · rw [hres]
      exact ⟨fun h => (by cases h), fun h => absurd hlen h⟩
    · rw [hres]
      constructor
      · rintro ⟨i, hi⟩
        cases hi
      · rintro ⟨i, hi1, hi2⟩
        have := hall i (by omega)
        omega
    · intro i hi
      rw [hres] at hi
      cases hi
  · refine ⟨?_, fun _ => ⟨?_, ?_⟩, fun _ hall => ?_, hcall, hval, hfail⟩
    · rw [hres]
      exact ⟨fun h => (by cases h), fun h => absurd hlen h⟩
    · exact ⟨fun _ => ⟨j, hj1, hj2⟩, fun _ => ⟨j, hres⟩⟩
    · intro i hi
      rw [hres] at hi
      cases hi
      exact ⟨hj1, hj2, hj3⟩
    · have := hall j hj1
      omega

/-- Witness of the amended C8 on the `{2, 3}` array of the tests `IndexingOperator` and
`OutOfBoundsAccessThrows`: accessed at `(2, 3)` both indices are out of bounds and the
error names axis `0`; accessed at `(1, 2)`, with the buffer of `6 = 2 * 3` elements, the
access succeeds. -/
theorem C8_element_access_errors_witness :
    NDArray.new [1, 2, 3, 4, 5, 6] [2, 3] =
      .ok (⟨[1, 2, 3, 4, 5, 6], [2, 3], [3, 1], 2, 6⟩ : NDArray Int) ∧
    NDArray._operator_parenthesis (⟨[1, 2, 3, 4, 5, 6], [2, 3], [3, 1], 2, 6⟩ : NDArray Int)
      [2, 3] = .error (.out_of_range_index 0) ∧
    NDArray.operator_call (⟨[1, 2, 3, 4, 5, 6], [2, 3], [3, 1], 2, 6⟩ : NDArray Int)
      [2, 3] = .error (.out_of_range_index 0) ∧
    ∃ x, NDArray.operator_call (⟨[1, 2, 3, 4, 5, 6], [2, 3], [3, 1], 2, 6⟩ : NDArray Int)
      [1, 2] = .ok x :=
  ⟨by decide, by decide,
    ((C8_element_access_errors [1, 2, 3, 4, 5, 6] [2, 3] [2, 3]
      (⟨[1, 2, 3, 4, 5, 6], [2, 3], [3, 1], 2, 6⟩ : NDArray Int) (by decide)
      (by decide)).2.2.2.1 (.out_of_range_index 0) (by decide)).2 (by decide),
    (C8_element_access_errors [1, 2, 3, 4, 5, 6] [2, 3] [1, 2]
      (⟨[1, 2, 3, 4, 5, 6], [2, 3], [3, 1], 2, 6⟩ : NDArray Int) (by decide)
      (by decide)).2.2.2.2.1 (by decide) (by decide) (by decide)⟩

/-- C9: for every array constructed from a buffer and a shape of rank at least 1 whose
buffer length (a `size_t`) equals the product of the extents, and every in-bounds index
vector `idx`, element access returns `buffer[p]` for
`p = Σ_i idx[i] * Π_{j > i} shape[j]`, the row-major position of `idx`. -/
theorem C9_element_access_value {α : Type} (data : List α) (shape idx : Shape)
    (hrank : 1 ≤ shape.length) (hsize : data.length = shape.prod)
    (hsz : data.length < SIZE_MOD) (hidx : InBounds idx shape) :
    ∃ a x, NDArray.new data shape = .ok a ∧
      data[row_major_offset idx shape]? = some x ∧ a.operator_call idx = .ok x := by
  obtain ⟨x, hx1, hx2⟩ := operator_call_spec data shape idx hsize hsz hidx
  exact ⟨_, x, NDArray_new_spec data shape hrank, hx1, hx2⟩

/-- Witness of C9 on the `{2, 3}` array of the test `IndexingOperator` accessed at
`(1, 2)`: the row-major position is `1 * 3 + 2 = 5` and the element is `6`. -/
theorem C9_element_access_value_witness :
    row_major_offset [1, 2] [2, 3] = 1 * 3 + 2 ∧
    ∃ a x, NDArray.new ([1, 2, 3, 4, 5, 6] : List Int) [2, 3] = .ok a ∧
      ([1, 2, 3, 4, 5, 6] : List Int)[row_major_offset [1, 2] [2, 3]]? = some x ∧
      a.operator_call [1, 2] = .ok x :=
  ⟨by decide, C9_element_access_value [1, 2, 3, 4, 5, 6] [2, 3] [1, 2] (by decide)
    (by decide) (by decide) (by decide)⟩

/-! ## Claim C10: size check of the element-wise functions -/

/-- C10: for tensors `a` and `b` built by the constructor, `add a b` and `mul a b` fail if
and only if `a.size() != b.size()`, and then with `std::invalid_argument`
("Tensor sizes do not match"); only the flat element counts are compared, the shapes
are not. -/
theorem C10_add_mul_size_check {α : Type} [Zero α] [Add α] [Mul α] (d1 d2 : List α)
    (s1 s2 : Shape) (a b : Tensor α) (ha : Tensor.new d1 s1 = .ok a)
    (hb : Tensor.new d2 s2 = .ok b) :
    ((∃ e, add a b = .error e) ↔ a.size ≠ b.size) ∧
    (a.size ≠ b.size → add a b = .error (.invalid_argument .sizes_do_not_match)) ∧
    ((∃ e, mul a b = .error e) ↔ a.size ≠ b.size) ∧
    (a.size ≠ b.size → mul a b = .error (.invalid_argument .sizes_do_not_match)) := by
  obtain ⟨hrank, rfl⟩ := NDArray_new_inv d1 s1 a ha
  obtain ⟨_, rfl⟩ := NDArray_new_inv d2 s2 b hb
  simp only [NDArray.size]
  have hadd : d1.length ≠ d2.length →
      add (⟨d1, s1, row_major_strides s1, s1.length, d1.length⟩ : Tensor α)
        ⟨d2, s2, row_major_strides s2, s2.length, d2.length⟩ =
        .error (.invalid_argument .sizes_do_not_match) := by
    intro h
    simp [add, NDArray.size, h]
  have hmul : d1.length ≠ d2.length →
      mul (⟨d1, s1, row_major_strides s1, s1.length, d1.length⟩ : Tensor α)
        ⟨d2, s2, row_major_strides s2, s2.length, d2.length⟩ =
        .error (.invalid_argument .sizes_do_not_match) := by
    intro h
    simp [mul, NDArray.size, h]
  refine ⟨⟨?_, fun h => ⟨_, hadd h⟩⟩, hadd, ⟨?_, fun h => ⟨_, hmul h⟩⟩, hmul⟩
  · rintro ⟨e, he⟩ heq
    rw [add_spec d1 d2 s1 s2 _ _ hrank heq] at he
    cases he
  · rintro ⟨e, he⟩ heq
    rw [mul_spec d1 d2 s1 s2 _ _ hrank heq] at he
    cases he

/-- Witness of C10 at two tensors of six elements with the different shapes `{2, 3}` and
`{3, 2}`: the sizes agree, so neither `add` nor `mul` fails. -/
theorem C10_add_mul_size_check_witness :
    (¬ ∃ e, add (⟨[1, 2, 3, 4, 5, 6], [2, 3], [3, 1], 2, 6⟩ : Tensor Int)
      ⟨[6, 5, 4, 3, 2, 1], [3, 2], [2, 1], 2, 6⟩ = .error e) ∧
    (¬ ∃ e, mul (⟨[1, 2, 3, 4, 5, 6], [2, 3], [3, 1], 2, 6⟩ : Tensor Int)
      ⟨[6, 5, 4, 3, 2, 1], [3, 2], [2, 1], 2, 6⟩ = .error e) :=
  ⟨fun h => ((C10_add_mul_size_check [1, 2, 3, 4, 5, 6] [6, 5, 4, 3, 2, 1] [2, 3] [3, 2]
      (⟨[1, 2, 3, 4, 5, 6], [2, 3], [3, 1], 2, 6⟩ : Tensor Int)
      ⟨[6, 5, 4, 3, 2, 1], [3, 2], [2, 1], 2, 6⟩ (by decide) (by decide)).1.1 h) (by decide),
   fun h => ((C10_add_mul_size_check [1, 2, 3, 4, 5, 6] [6, 5, 4, 3, 2, 1] [2, 3] [3, 2]
      (⟨[1, 2, 3, 4, 5, 6], [2, 3], [3, 1], 2, 6⟩ : Tensor Int)
      ⟨[6, 5, 4, 3, 2, 1], [3, 2], [2, 1], 2, 6⟩ (by decide) (by decide)).2.2.1.1 h)
      (by decide)⟩

/-! ## Helper facts for the claims C11 to C20 -/

theorem is_contigous_loop_spec (shape : Shape) (i : Nat) (hi : i < shape.length) :
    is_contigous_loop shape (row_major_strides shape) i = .ok true := by
  induction i with
  | zero => rfl
  | succ i ih =>
    have h1 : i < (row_major_strides shape).length := by
      rw [row_major_strides_length]; omega
    have h2 : i + 1 < (row_major_strides shape).length := by
      rw [row_major_strides_length]; omega
    rw [is_contigous_loop, vec_get_nat h1, vec_get_nat hi, vec_get_nat h2]
    simp only
    rw [if_neg (by rw [row_major_strides_step shape i hi]; simp)]
    exact ih (by omega)

theorem compatible_comm (a b : Nat) : compatible a b ↔ compatible b a := by
  unfold compatible
  omega

theorem shape_broadcast_comm (s1 s2 : Shape) :
    shape_broadcast s1 s2 = shape_broadcast s2 s1 := by
  have hmax : max s2.length s1.length = max s1.length s2.length := Nat.max_comm _ _
  rcases shape_broadcast_spec s1 s2 with
    ⟨hall, res, hres, hrl, hnew⟩ | ⟨⟨j, hj1, hj2⟩, herr⟩
  · rcases shape_broadcast_spec s2 s1 with
      ⟨_, res2, hres2, hrl2, hnew2⟩ | ⟨⟨j, hj1, hj2⟩, _⟩
    · rw [hres, hres2]
      congr 1
      rw [hmax] at hrl2 hnew2
      apply eq_of_getD_eq _ _ (by omega)
      intro i hi
      have e1 := hnew (max s1.length s2.length - 1 - i) (by omega)
      have e2 := hnew2 (max s1.length s2.length - 1 - i) (by omega)
      have e3 : max s1.length s2.length - 1 - (max s1.length s2.length - 1 - i) = i := by
        omega
      rw [e3] at e1 e2
      rw [e1, e2, Nat.max_comm]
    · rw [hmax] at hj1
      exact absurd ((compatible_comm _ _).1 (hall j hj1)) hj2
  · rcases shape_broadcast_spec s2 s1 with
      ⟨hall2, _, _, _, _⟩ | ⟨_, herr2⟩
    · rw [hmax] at hall2
      exact absurd ((compatible_comm _ _).1 (hall2 j hj1)) hj2
    · rw [herr, herr2]

theorem aligned_extent_pos (s : Shape) (h : PositiveExtents s) (j : Nat) :
    1 ≤ aligned_extent s j := by
  unfold aligned_extent
  by_cases hj : j < s.length
  · rw [if_pos hj]
    exact h _ (getD_mem_of_lt s _ (by omega))
  · rw [if_neg hj]

theorem matmul_spec {α : Type} (d1 d2 : List α) (s1 s2 st1 st2 : Shape) (n1 n2 m1 m2 : Nat)
    (h1 : 1 ≤ s1.length) (h2 : 1 ≤ s2.length) :
    matmul (⟨d1, s1, st1, n1, m1⟩ : Tensor α) ⟨d2, s2, st2, n2, m2⟩ =
      if s1.getD (s1.length - 1) 0 ≠ s2.getD 0 0 then
        .error (.invalid_argument .matmul_invalid)
      else
        match shape_broadcast s1 s2 with
        | .error e => .error e
        | .ok _ => .ok ⟨d1, s1, st1, n1, m1⟩ := by
  have hn : s1.length ≠ 0 := by omega
  unfold matmul
  simp only [NDArray.shape, size_dec, hn, if_false]
  rw [vec_get_nat (by omega), vec_get_nat (by omega)]

theorem is_close_loop_spec {α : Type} [Sub α] (fabs : α → α) (gt : α → α → Bool)
    (d1 d2 : List α) (tol : α) (k i : Nat) (hk : i + k = d1.length)
    (hlen : d1.length = d2.length) :
    ((∀ j x y, i ≤ j → d1[j]? = some x → d2[j]? = some y → gt (fabs (x - y)) tol = false) ∧
      is_close_loop fabs gt d1 d2 tol k i = .ok true) ∨
    ((∃ j x y, i ≤ j ∧ d1[j]? = some x ∧ d2[j]? = some y ∧ gt (fabs (x - y)) tol = true) ∧
      is_close_loop fabs gt d1 d2 tol k i = .ok false) := by
  induction k generalizing i with
  | zero =>
    left
    refine ⟨?_, rfl⟩
    intro j x y hj hx _
    have : d1[j]? = none := List.getElem?_eq_none (by omega)
    rw [this] at hx
    cases hx
  | succ k ih =>
    have hi1 : i < d1.length := by omega
    have hi2 : i < d2.length := by omega
    rw [is_close_loop, vec_get_of_getElem? (List.getElem?_eq_getElem hi1),
      vec_get_of_getElem? (List.getElem?_eq_getElem hi2)]
    simp only
    by_cases hgt : gt (fabs (d1[i] - d2[i])) tol = true
    · right
      rw [if_pos hgt]
      exact ⟨⟨i, _, _, le_refl _, List.getElem?_eq_getElem hi1,
        List.getElem?_eq_getElem hi2, hgt⟩, rfl⟩
    · rw [if_neg hgt]
      rcases ih (i + 1) (by omega) with ⟨hall, hok⟩ | ⟨⟨j, x, y, hj, hx, hy, hg⟩, hfalse⟩
      · left
        refine ⟨?_, hok⟩
        intro j x y hj hx hy
        by_cases hji : j = i
        · subst hji
          rw [List.getElem?_eq_getElem hi1] at hx
          rw [List.getElem?_eq_getElem hi2] at hy
          cases hx
          cases hy
          simpa using hgt
        · exact hall j x y (by omega) hx hy
      · right
        exact ⟨⟨j, x, y, by omega, hx, hy, hg⟩, hfalse⟩

theorem operator_call_in_buffer {α : Type} (data : List α) (shape idx : Shape)
    (hidx : InBounds idx shape) (hsize : data.length = shape.prod) :
    ∃ x, NDArray.operator_call
      (⟨data, shape, row_major_strides shape, shape.length, data.length⟩ : NDArray α) idx =
        .ok x := by
  have hlt := index_dot_lt_prod idx shape hidx
  have hle : index_dot idx (suffix_products shape) % SIZE_MOD < data.length :=
    lt_of_le_of_lt (Nat.mod_le _ _) (by omega)
  unfold NDArray.operator_call
  rcases operator_parenthesis_spec data shape idx with
    ⟨hne, _⟩ | ⟨_, hres⟩ | ⟨_, j, hj1, hj2, _, _⟩
  · exact absurd hidx.1 hne
  · rw [hres]
    simp only [NDArray.data]
    exact ⟨_, vec_get_of_getElem? (List.getElem?_eq_getElem hle)⟩
  · have := hidx.2 j (by have := hidx.1; omega)
    omega

/-! ## Helper facts for `to_string` -/

theorem intercalate_go_append (p acc sep : String) (xs : List String) :
    String.intercalate.go (p ++ acc) sep xs = p ++ String.intercalate.go acc sep xs := by
  induction xs generalizing acc with
  | nil => rfl
  | cons x xs ih =>
    simp only [String.intercalate.go]
    rw [← ih, String.append_assoc, String.append_assoc, String.append_assoc]

theorem append_intercalate_cons (p sep x : String) (xs : List String) :
    String.intercalate.go (p ++ x) sep xs = p ++ String.intercalate sep (x :: xs) := by
  rw [intercalate_go_append]
  rfl

theorem drop_eq_cons_of_lt {α : Type} (data : List α) (n : Nat) (h : n < data.length) :
    vec_get data n = .ok data[n] ∧ data.drop n = data[n] :: data.drop (n + 1) :=
  ⟨vec_get_of_getElem? (List.getElem?_eq_getElem h), List.drop_eq_getElem_cons h⟩

theorem to_string_elems_loop_go {α : Type} (fmt : α → String) (data : List α)
    (offset k i : Nat) (oss : String) (hi : 1 ≤ i) (hlen : offset + i + k ≤ data.length)
    (hsz : data.length < SIZE_MOD) :
    to_string_elems_loop fmt data offset k i oss =
      .ok (String.intercalate.go oss ", " (((data.drop (offset + i)).take k).map fmt)) := by
  induction k generalizing i oss with
  | zero => simp [to_string_elems_loop, String.intercalate.go]
  | succ k ih =>
    have hlt : offset + i < data.length := by omega
    obtain ⟨h1, h2⟩ := drop_eq_cons_of_lt data (offset + i) hlt
    have hadd : size_add offset i = offset + i := Nat.mod_eq_of_lt (by omega)
    rw [to_string_elems_loop, hadd, h1]
    simp only
    rw [ih (i + 1) _ (by omega) (by omega), h2, if_pos (by omega)]
    simp only [List.take_succ_cons, List.map_cons, String.intercalate.go]
    rfl

theorem to_string_elems_loop_spec {α : Type} (fmt : α → String) (data : List α)
    (offset c : Nat) (oss : String) (hlen : offset + c ≤ data.length)
    (hsz : data.length < SIZE_MOD) :
    to_string_elems_loop fmt data offset c 0 oss =
      .ok (oss ++ String.intercalate ", " (((data.drop offset).take c).map fmt)) := by
  cases c with
  | zero => simp [to_string_elems_loop, String.intercalate]
  | succ k =>
    have hlt : offset < data.length := by omega
    obtain ⟨h1, h2⟩ := drop_eq_cons_of_lt data offset hlt
    have hadd : size_add offset 0 = offset := Nat.mod_eq_of_lt (by omega)
    rw [to_string_elems_loop, hadd, h1]
    simp only
    rw [to_string_elems_loop_go fmt data offset k 1 _ (le_refl _) (by omega) hsz, h2,
      if_neg (by omega)]
    simp only [List.take_succ_cons, List.map_cons]
    exact congrArg Except.ok (append_intercalate_cons oss ", " _ _)

theorem to_string_rec_last_axis {α : Type} (fmt : α → String) (data : List α) (r c : Nat)
    (st : Strides) (n fuel i : Nat) (indent oss : String)
    (hlen : i * c + c ≤ data.length) (hsz : data.length < SIZE_MOD) :
    to_string_rec fmt (⟨data, [r, c], st, 2, n⟩ : NDArray α) (fuel + 1) (i * c) 1 indent oss =
      .ok (oss ++ rendered_row fmt data c i) := by
  rw [to_string_rec]
  have h1 : (1 : Nat) = size_dec (NDArray.ndim (⟨data, [r, c], st, 2, n⟩ : NDArray α)) := rfl
  rw [if_pos h1]
  have h2 : vec_get (NDArray.shape (⟨data, [r, c], st, 2, n⟩ : NDArray α)) 1 = .ok c := rfl
  rw [h2]
  simp only [NDArray.data]
  rw [to_string_elems_loop_spec fmt data (i * c) c _ hlen hsz]
  simp only [rendered_row, String.append_assoc]

theorem to_string_blocks_loop_go (rec_call : Nat → String → Except Exn String)
    (row : Nat → String) (r c k i : Nat) (oss : String)
    (hrec : ∀ j o, j < r → rec_call (j * c) o = .ok (o ++ row j))
    (hi : 1 ≤ i) (hk : i + k = r) (hsz : r * c < SIZE_MOD) :
    to_string_blocks_loop rec_call "" 0 c k i oss =
      .ok (String.intercalate.go oss ",\n " ((List.range' i k).map row)) := by
  induction k generalizing i oss with
  | zero => simp [to_string_blocks_loop, String.intercalate.go]
  | succ k ih =>
    have hlt : i * c < SIZE_MOD :=
      lt_of_le_of_lt (Nat.mul_le_mul_right c (by omega)) hsz
    have hoff : size_add 0 (size_mul i c) = i * c := by
      simp only [size_add, size_mul, Nat.zero_add, Nat.mod_mod]
      exact Nat.mod_eq_of_lt hlt
    rw [to_string_blocks_loop, hoff, hrec i _ (by omega)]
    simp only
    rw [ih (i + 1) _ (by omega) (by omega), if_pos (by omega)]
    simp only [List.range'_succ, List.map_cons, String.intercalate.go, String.append_empty,
      String.append_assoc]
    rfl

theorem size_add_zero_one : size_add 0 1 = 1 := by decide

theorem to_string_rank_two {α : Type} (fmt : α → String) (data : List α) (r c : Nat)
    (st : Strides) (hr : 1 ≤ r) (hc : 1 ≤ c) (hlen : data.length = r * c)
    (hsz : data.length < SIZE_MOD) :
    NDArray.to_string fmt (⟨data, [r, c], st, 2, data.length⟩ : NDArray α) =
      .ok (rendered_matrix fmt data r c) := by
  have hpos : 0 < r * c := Nat.mul_pos hr hc
  have hcle : c ≤ r * c := Nat.le_mul_of_pos_left c hr
  have hrec : ∀ j o, j < r →
      to_string_rec fmt (⟨data, [r, c], st, 2, data.length⟩ : NDArray α) 1 (j * c)
        1 ("" ++ " ") o = .ok (o ++ rendered_row fmt data c j) := by
    intro j o hj
    have h1 : j * c + c ≤ data.length := by
      rw [hlen]
      calc j * c + c = (j + 1) * c := by ring
        _ ≤ r * c := Nat.mul_le_mul_right c hj
    exact to_string_rec_last_axis fmt data r c st data.length 0 j _ o h1 hsz
  unfold NDArray.to_string
  simp only [NDArray.size, NDArray.ndim]
  rw [if_neg (by omega), to_string_rec]
  have h0 : ¬ (0 : Nat) = size_dec (NDArray.ndim (⟨data, [r, c], st, 2, data.length⟩ :
      NDArray α)) := by simp [NDArray.ndim, size_dec]
  rw [if_neg h0]
  simp only [NDArray.ndim, NDArray.shape, size_add_zero_one]
  have hsub : subarray_size_loop [r, c] (2 - 1) 1 1 = .ok c := by
    simp only [subarray_size_loop, vec_get, size_mul]
    simp only [List.getElem?_cons_succ, List.getElem?_cons_zero, Nat.one_mul]
    rw [Nat.mod_eq_of_lt (by omega)]
  rw [hsub]
  have hget : vec_get [r, c] 0 = .ok r := rfl
  simp only [hget]
  obtain ⟨k, rfl⟩ : ∃ k, r = k + 1 := ⟨r - 1, by omega⟩
  rw [to_string_blocks_loop]
  have hoff : size_add 0 (size_mul 0 c) = 0 * c := by simp [size_add, size_mul]
  rw [hoff, hrec 0 _ (by omega)]
  simp only
  rw [to_string_blocks_loop_go _ (rendered_row fmt data c) (k + 1) c k 1 _
    (fun j o hj => hrec j o hj) (le_refl _) (by omega) (by omega), if_neg (by omega),
    append_intercalate_cons]
  simp only [rendered_matrix, List.range_eq_range', List.range'_succ, List.map_cons,
    String.empty_append, String.append_assoc, Nat.zero_add]

/-! ## The fragment of `float` values -/

theorem F32_round_nat_small (m : Nat) (h : m < 2 ^ 24) : F32.round_nat m = some m := by
  have h2 : m < 16777216 := by
    norm_num at h
    exact h
  have hfind : (List.range 106).find? (fun e => decide (m / 2 ^ e < 2 ^ 24)) = some 0 := by
    rw [show List.range 106 = 0 :: (List.range 105).map Nat.succ from
      List.range_succ_eq_map 105]
    simp [h2]
  unfold F32.round_nat
  rw [hfind]
  simp only [pow_zero, Nat.div_one, Nat.mod_one, Nat.mul_zero, Nat.mul_one]
  norm_num
  omega

theorem F32_sub_rounds :
    F32.int 16777215 - F32.int (-2) = F32.int 16777216 ∧
    F32.int 16777219 - F32.int 0 = F32.int 16777220 ∧
    F32.int 5 - F32.int 0 = F32.int 5 ∧
    F32.int 0 - F32.int 5 = F32.int (-5) := by
  decide

/-! ## Claims C11 and C12: element-wise functions -/

/-- C11: for tensors `a` and `b` built by the constructor with `a.size() == b.size()`,
`add a b` returns a tensor whose shape is the shape of `a`, whose size is `a.size()`, and
whose `i`-th flat element is `a.data[i] + b.data[i]` for every `i < a.size()`; `mul a b` is
the same with `a.data[i] * b.data[i]`. The shape of `b` plays no role (no broadcasting). -/
theorem C11_add_mul_values {α : Type} [Zero α] [Add α] [Mul α] (d1 d2 : List α)
    (s1 s2 : Shape) (a b : Tensor α) (ha : Tensor.new d1 s1 = .ok a)
    (hb : Tensor.new d2 s2 = .ok b) (hsize : a.size = b.size) :
    (∃ t, add a b = .ok t ∧ t.shape = a.shape ∧ t.size = a.size ∧
      t.data.length = a.size ∧
      ∀ i, i < a.size → ∃ x y, a.data[i]? = some x ∧ b.data[i]? = some y ∧
        t.data[i]? = some (x + y)) ∧
    (∃ t, mul a b = .ok t ∧ t.shape = a.shape ∧ t.size = a.size ∧
      t.data.length = a.size ∧
      ∀ i, i < a.size → ∃ x y, a.data[i]? = some x ∧ b.data[i]? = some y ∧
        t.data[i]? = some (x * y)) := by
  obtain ⟨hrank, rfl⟩ := NDArray_new_inv d1 s1 a ha
  obtain ⟨_, rfl⟩ := NDArray_new_inv d2 s2 b hb
  simp only [NDArray.size] at hsize
  constructor
  · refine ⟨_, add_spec d1 d2 s1 s2 _ _ hrank hsize, rfl, rfl, ?_, ?_⟩
    · simp [NDArray.data, NDArray.size, List.length_zipWith, hsize]
    · intro i hi
      simp only [NDArray.size] at hi
      have hi2 : i < d2.length := by omega
      refine ⟨d1[i], d2[i], List.getElem?_eq_getElem hi, List.getElem?_eq_getElem hi2, ?_⟩
      simp [NDArray.data, List.getElem?_zipWith, List.getElem?_eq_getElem hi,
        List.getElem?_eq_getElem hi2]
  · refine ⟨_, mul_spec d1 d2 s1 s2 _ _ hrank hsize, rfl, rfl, ?_, ?_⟩
    · simp [NDArray.data, NDArray.size, List.length_zipWith, hsize]
    · intro i hi
      simp only [NDArray.size] at hi
      have hi2 : i < d2.length := by omega
      refine ⟨d1[i], d2[i], List.getElem?_eq_getElem hi, List.getElem?_eq_getElem hi2, ?_⟩
      simp [NDArray.data, List.getElem?_zipWith, List.getElem?_eq_getElem hi,
        List.getElem?_eq_getElem hi2]

/-- Witness of C11 at two tensors of six elements with the shapes `{2, 3}` and `{3, 2}`: the
sum has the shape `{2, 3}` of the first operand. -/
theorem C11_add_mul_values_witness :
    add (⟨[1, 2, 3, 4, 5, 6], [2, 3], [3, 1], 2, 6⟩ : Tensor Int)
      ⟨[6, 5, 4, 3, 2, 1], [3, 2], [2, 1], 2, 6⟩ =
        .ok ⟨[7, 7, 7, 7, 7, 7], [2, 3], [3, 1], 2, 6⟩ ∧
    ∃ t, mul (⟨[1, 2, 3, 4, 5, 6], [2, 3], [3, 1], 2, 6⟩ : Tensor Int)
      ⟨[6, 5, 4, 3, 2, 1], [3, 2], [2, 1], 2, 6⟩ = .ok t ∧
      t.shape = [2, 3] ∧ t.size = 6 ∧ t.data.length = 6 ∧
      ∀ i, i < 6 → ∃ x y, ([1, 2, 3, 4, 5, 6] : List Int)[i]? = some x ∧
        ([6, 5, 4, 3, 2, 1] : List Int)[i]? = some y ∧ t.data[i]? = some (x * y) :=
  ⟨by decide,
    (C11_add_mul_values [1, 2, 3, 4, 5, 6] [6, 5, 4, 3, 2, 1] [2, 3] [3, 2]
      (⟨[1, 2, 3, 4, 5, 6], [2, 3], [3, 1], 2, 6⟩ : Tensor Int)
      ⟨[6, 5, 4, 3, 2, 1], [3, 2], [2, 1], 2, 6⟩ (by decide) (by decide) (by decide)).2⟩

/-- C12 as stated fails on a NaN: with equal shapes `{1}`, data `[NaN]` and `[0]` and tolerance
`1`, the test `std::fabs(NaN - 0) > 1` is false, so `is_close` returns `true`, although
`|NaN - 0| <= 1` is false. -/
theorem C12_counterexample :
    Tensor.new [F32.nan] [1] = .ok ⟨[F32.nan], [1], [1], 1, 1⟩ ∧
    Tensor.new [F32.int 0] [1] = .ok ⟨[F32.int 0], [1], [1], 1, 1⟩ ∧
    is_close F32.fabs F32.gt (⟨[F32.nan], [1], [1], 1, 1⟩ : Tensor F32)
      ⟨[F32.int 0], [1], [1], 1, 1⟩ (F32.int 1) = .ok true ∧
    F32.le (F32.fabs (F32.nan - F32.int 0)) (F32.int 1) = false := by
  decide

/-- C12 (amended): for tensors `a` and `b` built by the constructor, `is_close a b tol` returns
`false` whenever the shapes differ; when the shapes are equal and both buffers have the
same length it returns `true` if and only if no `i < a.size()` has
`std::fabs(a.data[i] - b.data[i]) > tol`, and `false` otherwise. When moreover every
comparison of a difference with `tol` is decided the same way by `<=` as by "not `>`" (no
NaN is involved), this is: `|a.data[i] - b.data[i]| <= tol` for every `i < a.size()`. -/
theorem C12_is_close {α : Type} [Sub α] (fabs : α → α) (gt le : α → α → Bool)
    (d1 d2 : List α) (s1 s2 : Shape) (a b : Tensor α) (tol : α)
    (ha : Tensor.new d1 s1 = .ok a) (hb : Tensor.new d2 s2 = .ok b) :
    (a.shape ≠ b.shape → is_close fabs gt a b tol = .ok false) ∧
    (a.shape = b.shape → d1.length = d2.length →
      (is_close fabs gt a b tol = .ok true ↔
        ∀ (i : Nat) (x y : α), a.data[i]? = some x → b.data[i]? = some y →
          gt (fabs (x - y)) tol = false) ∧
      (is_close fabs gt a b tol = .ok true ∨ is_close fabs gt a b tol = .ok false)) ∧
    (a.shape = b.shape → d1.length = d2.length →
      (∀ (i : Nat) (x y : α), a.data[i]? = some x → b.data[i]? = some y →
        le (fabs (x - y)) tol = !gt (fabs (x - y)) tol) →
      (is_close fabs gt a b tol = .ok true ↔
        ∀ (i : Nat) (x y : α), a.data[i]? = some x → b.data[i]? = some y →
          le (fabs (x - y)) tol = true)) := by
  obtain ⟨_, rfl⟩ := NDArray_new_inv d1 s1 a ha
  obtain ⟨_, rfl⟩ := NDArray_new_inv d2 s2 b hb
  simp only [NDArray.shape, NDArray.data]
  have hmain : s1 = s2 → d1.length = d2.length →
      (is_close fabs gt (⟨d1, s1, row_major_strides s1, s1.length, d1.length⟩ : Tensor α)
          ⟨d2, s2, row_major_strides s2, s2.length, d2.length⟩ tol = .ok true ↔
        ∀ (i : Nat) (x y : α), d1[i]? = some x → d2[i]? = some y → gt (fabs (x - y)) tol = false) ∧
      (is_close fabs gt (⟨d1, s1, row_major_strides s1, s1.length, d1.length⟩ : Tensor α)
          ⟨d2, s2, row_major_strides s2, s2.length, d2.length⟩ tol = .ok true ∨
        is_close fabs gt (⟨d1, s1, row_major_strides s1, s1.length, d1.length⟩ : Tensor α)
          ⟨d2, s2, row_major_strides s2, s2.length, d2.length⟩ tol = .ok false) := by
    intro hs hlen
    unfold is_close
    simp only [NDArray.shape, NDArray.data, NDArray.size]
    rw [if_neg (by simpa using hs)]
    rcases is_close_loop_spec fabs gt d1 d2 tol d1.length 0 (by omega) hlen with
      ⟨hall, hok⟩ | ⟨⟨j, x, y, _, hx, hy, hg⟩, hfalse⟩
    · rw [hok]
      exact ⟨⟨fun _ i x y hx hy => hall i x y (Nat.zero_le _) hx hy, fun _ => rfl⟩,
        Or.inl rfl⟩
    · rw [hfalse]
      refine ⟨⟨fun h => (by cases h), fun h => ?_⟩, Or.inr rfl⟩
      have := h j x y hx hy
      rw [hg] at this
      cases this
  refine ⟨?_, hmain, ?_⟩
  · intro hs
    unfold is_close
    simp only [NDArray.shape]
    rw [if_pos hs]
  · intro hs hlen hle
    rw [(hmain hs hlen).1]
    constructor
    · intro h i x y hx hy
      rw [hle i x y hx hy, h i x y hx hy]
      rfl
    · intro h i x y hx hy
      have h1 := hle i x y hx hy
      rw [h i x y hx hy] at h1
      cases hg : gt (fabs (x - y)) tol
      · rfl
      · rw [hg] at h1
        cases h1

/-- Witness of the amended C12 at the tensors `[5]` and `[0]` of shape `{1}` and tolerance `1`:
the difference `5` exceeds the tolerance and `is_close` returns `false`. -/
theorem C12_is_close_witness :
    is_close F32.fabs F32.gt (⟨[F32.int 5], [1], [1], 1, 1⟩ : Tensor F32)
      ⟨[F32.int 0], [1], [1], 1, 1⟩ (F32.int 1) = .ok false ∧
    ¬ (∀ (i : Nat) (x y : F32), [F32.int 5][i]? = some x → [F32.int 0][i]? = some y →
        F32.gt (F32.fabs (x - y)) (F32.int 1) = false) :=
  ⟨by decide, fun h =>
    absurd (((C12_is_close F32.fabs F32.gt F32.le [F32.int 5] [F32.int 0] [1] [1]
      (⟨[F32.int 5], [1], [1], 1, 1⟩ : Tensor F32) ⟨[F32.int 0], [1], [1], 1, 1⟩ (F32.int 1)
      (by decide) (by decide)).2.1 rfl rfl).1.2 h) (by decide)⟩

/-! ## Claims C13 to C16: formatting, rank 0 and contiguity -/

/-- C13: for every array of shape `{r, c}` with `r ≥ 1`, `c ≥ 1` and `r * c` buffer elements
(a `size_t`), `to_string()` is an opening bracket, the rows joined by a comma, a line break
and a blank, and a closing bracket, where row `i` is an opening bracket, the renderings
of `buffer[i*c .. i*c+c-1]` joined by a comma and a blank, and a closing bracket. `fmt` is
the fixed-point rendering of one element with 3 decimals. -/
theorem C13_to_string_matrix {α : Type} (fmt : α → String) (data : List α) (r c : Nat)
    (hr : 1 ≤ r) (hc : 1 ≤ c) (hlen : data.length = r * c) (hsz : data.length < SIZE_MOD) :
    ∃ a, NDArray.new data [r, c] = .ok a ∧
      a.to_string fmt = .ok (rendered_matrix fmt data r c) := by
  refine ⟨_, NDArray_new_spec data [r, c] (by simp), ?_⟩
  exact to_string_rank_two fmt data r c _ hr hc hlen hsz

/-- Witness of C13 at the `{2, 3}` array of the test `ToString`, with the elements given by
their renderings: the text is `[[1.230, 4.560, 7.890],` followed by a line break and
` [2.340, 5.670, 8.900]]`. -/
theorem C13_to_string_matrix_witness :
    rendered_matrix id ["1.230", "4.560", "7.890", "2.340", "5.670", "8.900"] 2 3 =
      "[[1.230, 4.560, 7.890],\n [2.340, 5.670, 8.900]]" ∧
    ∃ a, NDArray.new ["1.230", "4.560", "7.890", "2.340", "5.670", "8.900"] [2, 3] = .ok a ∧
      a.to_string id =
        .ok (rendered_matrix id ["1.230", "4.560", "7.890", "2.340", "5.670", "8.900"] 2 3) :=
  ⟨by decide, C13_to_string_matrix id ["1.230", "4.560", "7.890", "2.340", "5.670", "8.900"]
    2 3 (by decide) (by decide) (by decide) (by decide)⟩

/-- C14: for every array with `size() == 0` (an empty buffer at construction), `to_string()`
returns exactly `[]`, whatever the stored shape is. -/
theorem C14_to_string_empty {α : Type} (fmt : α → String) (a : NDArray α)
    (h : a.size = 0) : a.to_string fmt = .ok "[]" := by
  unfold NDArray.to_string
  rw [if_pos h]

/-- Witness of C14 at the array built from the empty buffer and the shape `{2, 3}`. -/
theorem C14_to_string_empty_witness :
    NDArray.new ([] : List String) [2, 3] = .ok ⟨[], [2, 3], [3, 1], 2, 0⟩ ∧
    NDArray.to_string id (⟨[], [2, 3], [3, 1], 2, 0⟩ : NDArray String) = .ok "[]" :=
  ⟨by decide, C14_to_string_empty id ⟨[], [2, 3], [3, 1], 2, 0⟩ (by decide)⟩

/-- C15 fails on the code: the constructor called with the empty shape creates an empty
stride vector and then writes `strides[ndim - 1]` with `ndim = 0`, that is at index
`SIZE_MAX` of an empty vector. The call is an out-of-range access, for every buffer, and
yields no array. -/
theorem C15_rank_zero_constructor {α : Type} (data : List α) :
    NDArray.new data [] = .error .undefined_behaviour ∧
    vec_set (List.replicate ([] : Shape).length 0) (size_dec ([] : Shape).length) 1 =
      .error .undefined_behaviour := by
  exact ⟨NDArray_new_rank_zero data, by decide⟩

/-- C16: for every array built by the constructor from any buffer and any shape of rank at
least 1, `is_contigous()` returns `true`. -/
theorem C16_is_contigous {α : Type} (data : List α) (shape : Shape)
    (hrank : 1 ≤ shape.length) :
    ∃ a, NDArray.new data shape = .ok a ∧ a.is_contigous = .ok true := by
  refine ⟨_, NDArray_new_spec data shape hrank, ?_⟩
  unfold NDArray.is_contigous
  simp only
  by_cases h1 : shape.length = 1
  · rw [if_pos h1]
  · have hn : shape.length ≠ 0 := by omega
    rw [if_neg h1]
    simp only [size_dec, hn, if_false]
    exact is_contigous_loop_spec shape _ (by omega)

/-- Witness of C16 at the shape `{3, 2, 2}` of the test `StrideComputation`. -/
theorem C16_is_contigous_witness :
    1 ≤ [3, 2, 2].length ∧
    ∃ a, NDArray.new (List.replicate 12 (0 : Int)) [3, 2, 2] = .ok a ∧
      a.is_contigous = .ok true :=
  ⟨by decide, C16_is_contigous (List.replicate 12 (0 : Int)) [3, 2, 2] (by decide)⟩

/-! ## Claims C17 to C19: broadcasting and `matmul` -/

/-- C17: `shape_broadcast` is symmetric. For all shapes `s1` and `s2` the two calls have the
same outcome: one fails if and only if the other fails, and when both succeed the results
are equal. -/
theorem C17_broadcast_symmetric (s1 s2 : Shape) :
    ((∃ e, shape_broadcast s1 s2 = .error e) ↔ (∃ e, shape_broadcast s2 s1 = .error e)) ∧
    (∀ o1 o2, shape_broadcast s1 s2 = .ok o1 → shape_broadcast s2 s1 = .ok o2 → o1 = o2) ∧
    shape_broadcast s1 s2 = shape_broadcast s2 s1 := by
  have h := shape_broadcast_comm s1 s2
  refine ⟨by rw [h], ?_, h⟩
  intro o1 o2 h1 h2
  rw [h, h2] at h1
  cases h1
  rfl

/-- Instance of C17 at the shapes `{3, 4}` and `{1, 4}` of the test `CompatibleShapes`. -/
theorem C17_broadcast_symmetric_witness :
    shape_broadcast [3, 4] [1, 4] = .ok [3, 4] ∧ shape_broadcast [1, 4] [3, 4] = .ok [3, 4] :=
  ⟨by decide, ((C17_broadcast_symmetric [3, 4] [1, 4]).2.2.symm).trans (by decide)⟩

/-- C18 as stated fails: for tensors of the shapes `{2, 3}` and `{3, 4}` the trailing extent
`3` of the first equals the leading extent `3` of the second, yet `matmul` fails, because
its call of `shape_broadcast` throws on the right-aligned pair `(3, 4)`. -/
theorem C18_counterexample :
    Tensor.new [1, 2, 3, 4, 5, 6] [2, 3] =
      .ok (⟨[1, 2, 3, 4, 5, 6], [2, 3], [3, 1], 2, 6⟩ : Tensor Int) ∧
    Tensor.new [1, 2, 3, 4, 5, 6, 7, 8, 9, 10, 11, 12] [3, 4] =
      .ok (⟨[1, 2, 3, 4, 5, 6, 7, 8, 9, 10, 11, 12], [3, 4], [4, 1], 2, 12⟩ : Tensor Int) ∧
    [2, 3].getD ([2, 3].length - 1) 0 = [3, 4].getD 0 0 ∧
    matmul (⟨[1, 2, 3, 4, 5, 6], [2, 3], [3, 1], 2, 6⟩ : Tensor Int)
      ⟨[1, 2, 3, 4, 5, 6, 7, 8, 9, 10, 11, 12], [3, 4], [4, 1], 2, 12⟩ =
        .error (.invalid_argument .cannot_broadcast) := by
  decide

/-- C18 (amended): for tensors `a` and `b` built by the constructor (rank at least 1),
`matmul a b` fails if and only if the trailing extent of `a` differs from the leading
extent of `b` or some right-aligned pair of extents of the two shapes is not compatible
(then the call of `shape_broadcast` throws); whenever it does not fail it returns `a`
itself, without a multiplication. -/
theorem C18_matmul {α : Type} (d1 d2 : List α) (s1 s2 : Shape) (a b : Tensor α)
    (ha : Tensor.new d1 s1 = .ok a) (hb : Tensor.new d2 s2 = .ok b) :
    (a.shape.getD (a.shape.length - 1) 0 ≠ b.shape.getD 0 0 →
      matmul a b = .error (.invalid_argument .matmul_invalid)) ∧
    (a.shape.getD (a.shape.length - 1) 0 = b.shape.getD 0 0 →
      (¬ ∀ j, j < max a.shape.length b.shape.length →
        compatible (aligned_extent a.shape j) (aligned_extent b.shape j)) →
      matmul a b = .error (.invalid_argument .cannot_broadcast)) ∧
    (a.shape.getD (a.shape.length - 1) 0 = b.shape.getD 0 0 →
      (∀ j, j < max a.shape.length b.shape.length →
        compatible (aligned_extent a.shape j) (aligned_extent b.shape j)) →
      matmul a b = .ok a) ∧
    ((∃ e, matmul a b = .error e) ↔
      (a.shape.getD (a.shape.length - 1) 0 ≠ b.shape.getD 0 0 ∨
        ¬ ∀ j, j < max a.shape.length b.shape.length →
          compatible (aligned_extent a.shape j) (aligned_extent b.shape j))) := by
  obtain ⟨hr1, rfl⟩ := NDArray_new_inv d1 s1 a ha
  obtain ⟨hr2, rfl⟩ := NDArray_new_inv d2 s2 b hb
  simp only [NDArray.shape]
  rw [matmul_spec d1 d2 s1 s2 _ _ _ _ _ _ hr1 hr2]
  by_cases hx : s1.getD (s1.length - 1) 0 = s2.getD 0 0
  · rw [if_neg (by simpa using hx)]
    rcases shape_broadcast_spec s1 s2 with
      ⟨hall, res, hres, _, _⟩ | ⟨⟨j, hj1, hj2⟩, herr⟩
    · rw [hres]
      refine ⟨fun h => absurd hx h, fun _ h => absurd hall h, fun _ _ => rfl, ?_⟩
      constructor
      · rintro ⟨e, he⟩
        cases he
      · rintro (h | h)
        · exact absurd hx h
        · exact absurd hall h
    · rw [herr]
      refine ⟨fun h => absurd hx h, fun _ _ => rfl, fun _ h => absurd (h j hj1) hj2, ?_⟩
      exact ⟨fun _ => Or.inr (fun h => hj2 (h j hj1)), fun _ => ⟨_, rfl⟩⟩
  · rw [if_pos hx]
    exact ⟨fun _ => rfl, fun h => absurd h hx, fun h => absurd h hx,
      fun _ => Or.inl hx, fun _ => ⟨_, rfl⟩⟩

/-- Witness of the amended C18 at two tensors of shape `{3, 3}`: the inner extents agree and
the shapes are compatible, so `matmul` returns its first operand. -/
theorem C18_matmul_witness :
    matmul (⟨[1, 2, 3, 4, 5, 6, 7, 8, 9], [3, 3], [3, 1], 2, 9⟩ : Tensor Int)
      ⟨[9, 8, 7, 6, 5, 4, 3, 2, 1], [3, 3], [3, 1], 2, 9⟩ =
        .ok ⟨[1, 2, 3, 4, 5, 6, 7, 8, 9], [3, 3], [3, 1], 2, 9⟩ :=
  (C18_matmul [1, 2, 3, 4, 5, 6, 7, 8, 9] [9, 8, 7, 6, 5, 4, 3, 2, 1] [3, 3] [3, 3]
    (⟨[1, 2, 3, 4, 5, 6, 7, 8, 9], [3, 3], [3, 1], 2, 9⟩ : Tensor Int)
    ⟨[9, 8, 7, 6, 5, 4, 3, 2, 1], [3, 3], [3, 1], 2, 9⟩ (by decide) (by decide)).2.2.1
    (by decide) (by decide)

/-- C19 as stated fails at a zero extent: `shape_broadcast` of `{0}` and `{2}` fails, although
the only right-aligned pair `(0, 2)` is not a pair of extents that are both greater
than 1. -/
theorem C19_counterexample :
    shape_broadcast [0] [2] = .error (.invalid_argument .cannot_broadcast) ∧
    ¬ (∃ j, j < max [0].length [2].length ∧ 1 < aligned_extent [0] j ∧
        1 < aligned_extent [2] j ∧ aligned_extent [0] j ≠ aligned_extent [2] j) := by
  decide

/-- C19 (amended): for all shapes, `shape_broadcast` fails if and only if some right-aligned
pair of extents are both different from 1 and unequal; for shapes whose extents are all at
least 1 this is: both greater than 1 and unequal. -/
theorem C19_broadcast_fails_iff (s1 s2 : Shape) :
    ((∃ e, shape_broadcast s1 s2 = .error e) ↔
      ∃ j, j < max s1.length s2.length ∧ aligned_extent s1 j ≠ 1 ∧
        aligned_extent s2 j ≠ 1 ∧ aligned_extent s1 j ≠ aligned_extent s2 j) ∧
    (PositiveExtents s1 → PositiveExtents s2 →
      ((∃ e, shape_broadcast s1 s2 = .error e) ↔
        ∃ j, j < max s1.length s2.length ∧ 1 < aligned_extent s1 j ∧
          1 < aligned_extent s2 j ∧ aligned_extent s1 j ≠ aligned_extent s2 j)) := by
  have hmain : (∃ e, shape_broadcast s1 s2 = .error e) ↔
      ∃ j, j < max s1.length s2.length ∧ aligned_extent s1 j ≠ 1 ∧
        aligned_extent s2 j ≠ 1 ∧ aligned_extent s1 j ≠ aligned_extent s2 j := by
    rcases shape_broadcast_spec s1 s2 with
      ⟨hall, res, hres, _, _⟩ | ⟨⟨j, hj1, hj2⟩, herr⟩
    · rw [hres]
      constructor
      · rintro ⟨e, he⟩
        cases he
      · rintro ⟨j, hj, hc⟩
        exact absurd hc ((compatible_iff _ _).1 (hall j hj))
    · rw [herr]
      refine ⟨fun _ => ⟨j, hj1, ?_⟩, fun _ => ⟨_, rfl⟩⟩
      by_contra hc
      exact hj2 ((compatible_iff _ _).2 hc)
  refine ⟨hmain, fun hp1 hp2 => ?_⟩
  rw [hmain]
  constructor
  · rintro ⟨j, hj, h1, h2, h3⟩
    have p1 := aligned_extent_pos s1 hp1 j
    have p2 := aligned_extent_pos s2 hp2 j
    exact ⟨j, hj, by omega, by omega, h3⟩
  · rintro ⟨j, hj, h1, h2, h3⟩
    exact ⟨j, hj, by omega, by omega, h3⟩

/-- Instance of the amended C19 at the shapes `{3, 4}` and `{2, 4}` of the test
`IncompatibleShapes`: the pair `(3, 2)` at the second axis from the right is a pair of
unequal extents above 1, and the call fails. -/
theorem C19_broadcast_fails_iff_witness :
    ∃ e, shape_broadcast [3, 4] [2, 4] = .error e :=
  ((C19_broadcast_fails_iff [3, 4] [2, 4]).2 (by decide) (by decide)).2
    ⟨1, by decide, by decide, by decide, by decide⟩

/-! ## Claim C20: element access stays inside the buffer -/

/-- C20: for every buffer, every shape of rank at least 1 and every in-bounds index vector
`idx`, the offset `nd_index_to_pos idx strides` computed with the constructor's strides is
strictly below the product of the extents; hence, when the buffer length equals that
product, it is below `size()` and element access returns an element of the buffer. -/
theorem C20_offset_in_buffer {α : Type} (data : List α) (shape idx : Shape)
    (hrank : 1 ≤ shape.length) (hidx : InBounds idx shape) :
    ∃ a p, NDArray.new data shape = .ok a ∧ nd_index_to_pos idx a.strides = .ok p ∧
      p < shape.prod ∧
      (data.length = shape.prod → p < a.size ∧ ∃ x, a.operator_call idx = .ok x) := by
  have hlt := index_dot_lt_prod idx shape hidx
  have hle : index_dot idx (suffix_products shape) % SIZE_MOD < shape.prod :=
    lt_of_le_of_lt (Nat.mod_le _ _) hlt
  refine ⟨_, _, NDArray_new_spec data shape hrank,
    nd_index_to_pos_row_major idx shape hidx.1, hle, ?_⟩
  intro hsize
  refine ⟨?_, operator_call_in_buffer data shape idx hidx hsize⟩
  simp only [NDArray.size]
  omega

/-- Witness of C20 at the `{2, 3}` array of the test `IndexingOperator` and the index
`(1, 2)`. -/
theorem C20_offset_in_buffer_witness :
    (1 ≤ [2, 3].length ∧ InBounds [1, 2] [2, 3]) ∧
    ∃ a p, NDArray.new ([1, 2, 3, 4, 5, 6] : List Int) [2, 3] = .ok a ∧
      nd_index_to_pos [1, 2] a.strides = .ok p ∧ p < [2, 3].prod ∧
      (([1, 2, 3, 4, 5, 6] : List Int).length = [2, 3].prod →
        p < a.size ∧ ∃ x, a.operator_call [1, 2] = .ok x) :=
  ⟨by decide, C20_offset_in_buffer [1, 2, 3, 4, 5, 6] [2, 3] [1, 2] (by decide) (by decide)⟩

/-! ## Helper facts for the claims C21 and C22 -/

theorem aligned_extent_beyond (s : Shape) (j : Nat) (h : s.length ≤ j) :
    aligned_extent s j = 1 := by
  unfold aligned_extent
  rw [if_neg (by omega)]

theorem eq_of_aligned_extent_eq (r1 r2 : Shape) (hlen : r1.length = r2.length)
    (h : ∀ j, aligned_extent r1 j = aligned_extent r2 j) : r1 = r2 := by
  apply eq_of_getD_eq r1 r2 hlen
  intro i hi
  have h1 := h (r1.length - 1 - i)
  unfold aligned_extent at h1
  rw [if_pos (by omega), if_pos (by omega), ← hlen] at h1
  have h2 : r1.length - 1 - (r1.length - 1 - i) = i := by omega
  rw [h2] at h1
  exact h1

theorem shape_broadcast_aligned (s1 s2 : Shape) :
    ((∀ j, compatible (aligned_extent s1 j) (aligned_extent s2 j)) ∧
      ∃ res, shape_broadcast s1 s2 = .ok res ∧ res.length = max s1.length s2.length ∧
        ∀ j, aligned_extent res j = max (aligned_extent s1 j) (aligned_extent s2 j)) ∨
    ((∃ j, ¬ compatible (aligned_extent s1 j) (aligned_extent s2 j)) ∧
      shape_broadcast s1 s2 = .error (.invalid_argument .cannot_broadcast)) := by
  rcases shape_broadcast_spec s1 s2 with
    ⟨hall, res, hres, hrl, hnew⟩ | ⟨⟨j, _, hj2⟩, herr⟩
  · left
    refine ⟨?_, res, hres, hrl, ?_⟩
    · intro j
      by_cases hj : j < max s1.length s2.length
      · exact hall j hj
      · rw [aligned_extent_beyond s1 j (by omega), aligned_extent_beyond s2 j (by omega)]
        exact Or.inl rfl
    · intro j
      by_cases hj : j < max s1.length s2.length
      · have h1 := hnew j hj
        rw [← hrl] at h1
        unfold aligned_extent at h1 ⊢
        rw [if_pos (by omega)]
        exact h1
      · rw [aligned_extent_beyond s1 j (by omega), aligned_extent_beyond s2 j (by omega),
          aligned_extent_beyond res j (by omega)]
        rfl
  · right
    exact ⟨⟨j, hj2⟩, herr⟩

theorem shape_broadcast_left_spec (a b c : Shape) :
    ((∀ j, compatible (aligned_extent a j) (aligned_extent b j) ∧
        compatible (max (aligned_extent a j) (aligned_extent b j)) (aligned_extent c j)) ∧
      ∃ res, shape_broadcast_left a b c = .ok res ∧
        res.length = max (max a.length b.length) c.length ∧
        ∀ j, aligned_extent res j =
          max (max (aligned_extent a j) (aligned_extent b j)) (aligned_extent c j)) ∨
    ((∃ j, ¬ (compatible (aligned_extent a j) (aligned_extent b j) ∧
        compatible (max (aligned_extent a j) (aligned_extent b j)) (aligned_extent c j))) ∧
      shape_broadcast_left a b c = .error (.invalid_argument .cannot_broadcast)) := by
  unfold shape_broadcast_left
  rcases shape_broadcast_aligned a b with ⟨hall, ab, hab, hlen, hext⟩ | ⟨⟨j, hj⟩, herr⟩
  · rw [hab]
    simp only
    rcases shape_broadcast_aligned ab c with
      ⟨hall2, res, hres, hlen2, hext2⟩ | ⟨⟨j, hj⟩, herr⟩
    · left
      refine ⟨fun j => ⟨hall j, ?_⟩, res, hres, by rw [hlen2, hlen], ?_⟩
      · rw [← hext j]
        exact hall2 j
      · intro j
        rw [hext2 j, hext j]
    · right
      refine ⟨⟨j, fun h => hj ?_⟩, herr⟩
      rw [hext j]
      exact h.2
  · right
    rw [herr]
    exact ⟨⟨j, fun h => hj h.1⟩, rfl⟩

theorem shape_broadcast_right_spec (a b c : Shape) :
    ((∀ j, compatible (aligned_extent b j) (aligned_extent c j) ∧
        compatible (aligned_extent a j) (max (aligned_extent b j) (aligned_extent c j))) ∧
      ∃ res, shape_broadcast_right a b c = .ok res ∧
        res.length = max a.length (max b.length c.length) ∧
        ∀ j, aligned_extent res j =
          max (aligned_extent a j) (max (aligned_extent b j) (aligned_extent c j))) ∨
    ((∃ j, ¬ (compatible (aligned_extent b j) (aligned_extent c j) ∧
        compatible (aligned_extent a j) (max (aligned_extent b j) (aligned_extent c j)))) ∧
      shape_broadcast_right a b c = .error (.invalid_argument .cannot_broadcast)) := by
  unfold shape_broadcast_right
  rcases shape_broadcast_aligned b c with ⟨hall, bc, hbc, hlen, hext⟩ | ⟨⟨j, hj⟩, herr⟩
  · rw [hbc]
    simp only
    rcases shape_broadcast_aligned a bc with
      ⟨hall2, res, hres, hlen2, hext2⟩ | ⟨⟨j, hj⟩, herr⟩
    · left
      refine ⟨fun j => ⟨hall j, ?_⟩, res, hres, by rw [hlen2, hlen], ?_⟩
      · rw [← hext j]
        exact hall2 j
      · intro j
        rw [hext2 j, hext j]
    · right
      refine ⟨⟨j, fun h => hj ?_⟩, herr⟩
      rw [hext j]
      exact h.2
  · right
    rw [herr]
    exact ⟨⟨j, fun h => hj h.1⟩, rfl⟩

theorem compatible_assoc (x y z : Nat) (hx : 1 ≤ x) (hy : 1 ≤ y) (hz : 1 ≤ z) :
    (compatible x y ∧ compatible (max x y) z) ↔ (compatible y z ∧ compatible x (max y z)) := by
  unfold compatible
  omega

/-! ## Claim C21: coordinates of an arbitrary position -/

/-- C21: for every shape whose extents are all at least 1 and every position `pos`, also
one at or above the product of the extents, `pos_to_nd_index pos shape` divides by no
zero and returns a vector of the length of the shape whose `i`-th coordinate is strictly
below `shape[i]`. -/
theorem C21_pos_to_nd_index_safe (pos : Nat) (shape : Shape) (h : PositiveExtents shape) :
    ∃ out, pos_to_nd_index pos shape = .ok out ∧ out.length = shape.length ∧
      ∀ i, i < shape.length → out.getD i 0 < shape.getD i 0 := by
  refine ⟨unravel pos shape, pos_to_nd_index_spec pos shape h, unravel_length pos shape, ?_⟩
  intro i hi
  rw [unravel_getD pos shape i hi]
  exact Nat.mod_lt _ (h _ (getD_mem_of_lt shape i hi))

/-- Witness of C21 at the shape `{2, 3, 2}` and the position `100`, which is above the
product `12` of the extents: the coordinates are `{0, 2, 0}`. -/
theorem C21_pos_to_nd_index_safe_witness :
    (PositiveExtents [2, 3, 2] ∧ [2, 3, 2].prod ≤ 100 ∧
      pos_to_nd_index 100 [2, 3, 2] = .ok [0, 2, 0]) ∧
    ∃ out, pos_to_nd_index 100 [2, 3, 2] = .ok out ∧ out.length = [2, 3, 2].length ∧
      ∀ i, i < [2, 3, 2].length → out.getD i 0 < [2, 3, 2].getD i 0 :=
  ⟨by decide, C21_pos_to_nd_index_safe 100 [2, 3, 2] (by decide)⟩

/-! ## Claim C22: associativity of broadcasting -/

/-- C22: broadcasting is associative on shapes with positive extents. For all shapes `a`,
`b`, `c` whose extents are all at least 1, the nested calls
`shape_broadcast(shape_broadcast(a, b), c)` and `shape_broadcast(a, shape_broadcast(b, c))`
have the same outcome: both fail, or both succeed with the same result. -/
theorem C22_broadcast_associative (a b c : Shape) (ha : PositiveExtents a)
    (hb : PositiveExtents b) (hc : PositiveExtents c) :
    (((∃ e, shape_broadcast_left a b c = .error e) ∧
        (∃ e, shape_broadcast_right a b c = .error e)) ∨
      (∃ res, shape_broadcast_left a b c = .ok res ∧
        shape_broadcast_right a b c = .ok res)) ∧
    shape_broadcast_left a b c = shape_broadcast_right a b c := by
  have hiff := fun j => compatible_assoc (aligned_extent a j) (aligned_extent b j)
    (aligned_extent c j) (aligned_extent_pos a ha j) (aligned_extent_pos b hb j)
    (aligned_extent_pos c hc j)
  rcases shape_broadcast_left_spec a b c with
    ⟨hallL, r1, hr1, hlen1, hext1⟩ | ⟨⟨j, hj⟩, herrL⟩
  · rcases shape_broadcast_right_spec a b c with
      ⟨_, r2, hr2, hlen2, hext2⟩ | ⟨⟨j, hj⟩, _⟩
    · have heq : r1 = r2 := by
        apply eq_of_aligned_extent_eq r1 r2 (by rw [hlen1, hlen2, Nat.max_assoc])
        intro j
        rw [hext1 j, hext2 j, Nat.max_assoc]
      subst heq
      exact ⟨Or.inr ⟨r1, hr1, hr2⟩, by rw [hr1, hr2]⟩
    · exact absurd ((hiff j).1 (hallL j)) hj
  · rcases shape_broadcast_right_spec a b c with
      ⟨hallR, _, _, _, _⟩ | ⟨_, herrR⟩
    · exact absurd ((hiff j).2 (hallR j)) hj
    · exact ⟨Or.inl ⟨⟨_, herrL⟩, ⟨_, herrR⟩⟩, by rw [herrL, herrR]⟩

/-- Witness of C22 at the shapes `{8, 1, 6, 1}`, `{7, 1, 5}` and `{1, 5}`: both nestings
succeed with `{8, 7, 6, 5}`. -/
theorem C22_broadcast_associative_witness :
    (PositiveExtents [8, 1, 6, 1] ∧ PositiveExtents [7, 1, 5] ∧ PositiveExtents [1, 5] ∧
      shape_broadcast_left [8, 1, 6, 1] [7, 1, 5] [1, 5] = .ok [8, 7, 6, 5]) ∧
    (((∃ e, shape_broadcast_left [8, 1, 6, 1] [7, 1, 5] [1, 5] = .error e) ∧
        (∃ e, shape_broadcast_right [8, 1, 6, 1] [7, 1, 5] [1, 5] = .error e)) ∨
      (∃ res, shape_broadcast_left [8, 1, 6, 1] [7, 1, 5] [1, 5] = .ok res ∧
        shape_broadcast_right [8, 1, 6, 1] [7, 1, 5] [1, 5] = .ok res)) ∧
    shape_broadcast_left [8, 1, 6, 1] [7, 1, 5] [1, 5] =
      shape_broadcast_right [8, 1, 6, 1] [7, 1, 5] [1, 5] :=
  ⟨by decide, C22_broadcast_associative [8, 1, 6, 1] [7, 1, 5] [1, 5] (by decide) (by decide)
    (by decide)⟩

end synapse
